import Mathlib

/-!
Verification development for the wrparse generalized (GLL) parsing library.

The definitions below are shallow embeddings of the C++ sources:

* `src/Token.cxx`, `include/wrparse/Token.h`   — the `Token` value type;
* `src/Grammar.cxx`, `include/wrparse/Grammar.h` — grammar components,
  rules, nonterminals and the lazily-computed first-set / LL(1) /
  matches-empty analysis (`NonTerminal::initTerminalsAndLL1`,
  `NonTerminal::updateTerminalsAndLL1`);
* `src/SPPF.cxx`, `include/wrparse/SPPF.h`     — SPPF nodes;
* `src/Parser.cxx`, `include/wrparse/Parser.h` — the parser proper: the
  GSS, descriptors, `getNode*` construction, `pop`/`create`,
  `beginNonTerminal`/`beginRule`/`parse`, diagnostics deduplication and
  the `Parser::parse` entry point.

Pointers are modelled by indices (tokens into the parser's token list,
SPPF nodes into an allocation arena, grammar objects into explicit index
structures), machine integers by `Nat`, fallible code by `Except`, and
the C++ recursion that terminates through a monotonically growing
visited set or worklist by an explicit fuel parameter.
-/

namespace WrParse

/-! ## Token (`src/Token.cxx`, `include/wrparse/Token.h`)

A token spelling is a byte sequence, modelled as `List Nat`.  The storage
revision in `src/Token.cxx` keeps short spellings inline in a buffer that
overlays the `spelling_.addr_` pointer; the tag bit stored on the `next_`
pointer records which representation is active (`tag = true` means the
`addr_` representation).  `bytes_` is a `uint16_t`, so spellings longer
than 65535 bytes are rejected with an exception. -/

/-- Number of UTF-8 code points in a byte sequence, counted as the number
of non-continuation bytes (a continuation byte is `0b10xxxxxx`).  This
models `wr::u8string_view::size()` from the external wrutil library,
which only enters `Token::setSpelling` through the small-spelling test
`spelling.has_max_size(1)` (at most one character, hence at most four
bytes — always fitting the pointer-sized inline buffer). -/
def u8CharCount (s : List Nat) : Nat :=
  (s.filter (fun b => decide (b % 256 < 128) || decide (192 ≤ b % 256))).length

/-- Test modelling `u8string_view::has_max_size(1)`. -/
def hasMaxSizeOne (s : List Nat) : Bool :=
  decide (u8CharCount s ≤ 1)

/-- Model of `wr::parse::Token` (the `src/Token.cxx` storage revision).
`tag` is the tag bit kept on the `next_` pointer; `buf` is the inline
spelling buffer; `addr` is the byte sequence referenced when the spelling
is stored externally. -/
structure TokenM where
  tag : Bool
  buf : List Nat
  addr : List Nat
  bytesF : Nat
  kindF : Nat
  offsetF : Nat
  flagsF : Nat
  lineF : Nat
  columnF : Nat
  deriving Repr, DecidableEq

/-- Model of `Token::Token()` / `Token::reset()` (the link to the next
token is not part of the value model). -/
def TokenM.resetT : TokenM :=
  { tag := true, buf := [], addr := [], bytesF := 0, kindF := 0,
    offsetF := 0, flagsF := 0, lineF := 0, columnF := 0 }

/-- Model of `Token::spelling()`: a view of `bytes_` bytes of whichever
storage the tag selects. -/
def TokenM.spellingT (t : TokenM) : List Nat :=
  if t.tag then t.addr.take t.bytesF else t.buf.take t.bytesF

/-- Model of `Token::setSpelling` (`src/Token.cxx` lines 64–96).  Throws
(`Except.error`) exactly when the spelling is longer than one character
and its byte count exceeds `uint16_t`'s maximum. -/
def TokenM.setSpelling (t : TokenM) (s : List Nat) : Except Unit TokenM :=
  if hasMaxSizeOne s then
    if s.isEmpty then
      Except.ok { t with tag := true, addr := [], bytesF := s.length }
    else
      Except.ok { t with tag := false, buf := s, bytesF := s.length }
  else if s.length > 65535 then
    Except.error ()
  else
    Except.ok { t with tag := true, addr := s, bytesF := s.length }

/-- Model of `Token::operator==` (`src/Token.cxx` lines 112–118): only
the kind and the spelling bytes take part in the comparison. -/
def TokenM.eqT (a b : TokenM) : Bool :=
  decide (a.kindF = b.kindF) && decide (a.spellingT = b.spellingT)

/-- Concrete token used to witness that positions are ignored by token
equality: same kind and spelling as `TokenM.resetT` but different
offset, line, column and flags. -/
def tokenAtOtherPos : TokenM :=
  { tag := true, buf := [], addr := [], bytesF := 0, kindF := 0,
    offsetF := 5, flagsF := 1, lineF := 2, columnF := 3 }

/-! ## Grammar model (`include/wrparse/Grammar.h`, `src/Grammar.cxx`)

Nonterminals are identified by their index in the grammar.  A component
is either a terminal (a token kind, `0` being `TOK_NULL`) or a reference
to a nonterminal; both carry the optional flag, and whether a predicate
callback is attached (the analysis only asks for the predicate's
presence, never calls it). -/

/-- Model of `wr::parse::Component` as used by the grammar analysis. -/
structure CompM where
  isTerminal : Bool
  terminal : Nat
  nt : Nat
  isOptional : Bool
  hasPredicate : Bool
  deriving Repr, DecidableEq

/-- Model of `wr::parse::Rule`: the component sequence (without the
trailing sentinel) and the enabled flag. -/
structure RuleM where
  comps : List CompM
  enabled : Bool
  deriving Repr, DecidableEq

/-- Model of `wr::parse::NonTerminal` as a static grammar object: its
rules plus the three display flags. -/
structure NTDef where
  rules : List RuleM
  transparent : Bool
  hideIfDelegate : Bool
  keepRecursion : Bool
  deriving Repr, DecidableEq

/-- A grammar: the list of nonterminal definitions, referenced by
index. -/
abbrev GrammarM := List NTDef

/-- Default (empty) nonterminal, used for out-of-range lookups. -/
def NTDef.defaultNT : NTDef :=
  { rules := [], transparent := false, hideIfDelegate := false,
    keepRecursion := false }

/-- Rules of nonterminal `n` in grammar `g`. -/
def ntRules (g : GrammarM) (n : Nat) : List RuleM :=
  (g.getD n NTDef.defaultNT).rules

/-- Whether a component refers to nonterminal `n`
(`Component::getAsNonTerminal() == &n`). -/
def CompM.refersTo (c : CompM) (n : Nat) : Bool :=
  !c.isTerminal && decide (c.nt = n)

/-- Model of `Rule::isRecursive` relative to owner `n`: some component
refers back to `n`. -/
def RuleM.isRecursiveTo (r : RuleM) (n : Nat) : Bool :=
  r.comps.any (fun c => c.refersTo n)

/-- Model of `Rule::isLeftRecursive` relative to owner `n`: the first
component refers back to `n`. -/
def RuleM.isLeftRecursiveTo (r : RuleM) (n : Nat) : Bool :=
  match r.comps with
  | [] => false
  | c :: _ => c.refersTo n

/-- Model of `Rule::isDelegate`: a single nonterminal component. -/
def RuleM.isDelegate (r : RuleM) : Bool :=
  match r.comps with
  | [c] => !c.isTerminal
  | _ => false

/-- Model of `Rule::mustHide` for a rule of nonterminal `n`. -/
def ruleMustHide (g : GrammarM) (n : Nat) (r : RuleM) : Bool :=
  (g.getD n NTDef.defaultNT).transparent ||
    (r.isDelegate && (g.getD n NTDef.defaultNT).hideIfDelegate)

/-! ## First-set / LL(1) / matches-empty analysis (`src/Grammar.cxx`
lines 621–747)

`initial_terminals_` is a map from token kind to a list of rule indices;
it is modelled as an association list (`TermMap`), new keys being
appended.  The analysis state of one nonterminal mirrors the mutable
bits of `NonTerminal`: `got_initial_terminals_`, `is_ll1_`,
`matches_empty_` and `initial_terminals_`.  The `visited` set passed by
reference through the C++ recursion is threaded explicitly, and the
recursion is bounded by fuel (each productive call inserts a fresh
nonterminal into `visited`, so `g.length + 1` fuel always suffices). -/

/-- Association list from token kind to the rule-index list
(`NonTerminal::Terminals`). -/
abbrev TermMap := List (Nat × List Nat)

/-- Lookup of a key's rule-index list. -/
def lookupKey (k : Nat) : TermMap → Option (List Nat)
  | [] => none
  | (k', l) :: rest => if k' = k then some l else lookupKey k rest

/-- Append `i` to key `k`'s list, creating the key if absent
(`initial_terminals_[t].push_back(rule.index())`). -/
def appendKey (k i : Nat) : TermMap → TermMap
  | [] => [(k, [i])]
  | (k', l) :: rest =>
      if k' = k then (k', l ++ [i]) :: rest else (k', l) :: appendKey k i rest

/-- Whether key `k`'s list is currently empty or absent
(`rule_indices.empty()` after `initial_terminals_[t]` creates a default
entry). -/
def keyIsEmpty (k : Nat) (m : TermMap) : Bool :=
  match lookupKey k m with
  | none => true
  | some l => l.isEmpty

/-- Mutable analysis fields of one `NonTerminal`. -/
structure NTState where
  got : Bool
  isLL1 : Bool
  matchesEmpty : Bool
  terminals : TermMap
  deriving Repr, DecidableEq

/-- Fields as set by the `NonTerminal` constructor. -/
def NTState.initial : NTState :=
  { got := false, isLL1 := false, matchesEmpty := false, terminals := [] }

/-- Result status of `NonTerminal::initTerminalsAndLL1`
(`InitTerminalsStatus`). -/
inductive AStatus where
  | stOK
  | stIsLR
  | stIndet
  deriving Repr, DecidableEq

/-- Global analysis state: the per-nonterminal states plus the visited
set threaded by reference through the recursion. -/
structure AState where
  entries : List NTState
  visited : List Nat
  deriving Repr, DecidableEq

/-- Read nonterminal `n`'s analysis fields. -/
def AState.get (s : AState) (n : Nat) : NTState :=
  s.entries.getD n NTState.initial

/-- Update nonterminal `n`'s analysis fields in place. -/
def AState.modify (s : AState) (n : Nat) (f : NTState → NTState) : AState :=
  { s with entries := s.entries.set n (f (s.get n)) }

/-- Model of `NonTerminal::updateTerminalsAndLL1` (`src/Grammar.cxx`
lines 738–747): `is_ll1_ = is_ll1_ && rule_indices.empty()` followed by
`rule_indices.push_back(rule.index())`. -/
def updateTerminalsAndLL1 (st : NTState) (t ri : Nat) : NTState :=
  { st with
    isLL1 := st.isLL1 && keyIsEmpty t st.terminals,
    terminals := appendKey t ri st.terminals }

/-- Outcome of the component walk of one rule (the `for` loop of
`initTerminalsAndLL1(visited, rule)`): either the early `IS_LR` return,
or normal exit carrying `rule_matches_empty`,
`depends_on_lone_predicate` and `subprod_indeterminate`. -/
inductive WalkOut where
  | outIsLR
  | outDone (ruleME lonePred subIndet : Bool)
  deriving Repr, DecidableEq

/-- The inner loop `for (auto &i : other->initial_terminals_)
updateTerminalsAndLL1(i.first, rule)` (`src/Grammar.cxx` lines
713–715): fold the callee's first-set keys into `self`'s map. -/
def foldFirstSets (self ri : Nat) (kvs : TermMap) (s : AState) : AState :=
  kvs.foldl
    (fun acc kv =>
      acc.modify self (fun st => updateTerminalsAndLL1 st kv.1 ri)) s

/-- Component walk of `NonTerminal::initTerminalsAndLL1(visited, rule)`
(`src/Grammar.cxx` lines 680–722).  `rec` is the recursive analysis call
`other->initTerminalsAndLL1(visited)` (the status it returns is
discarded in the source, line 705); `self` is the analysed nonterminal,
`ri` the rule's index. -/
def walkComps (g : GrammarM) (rec : Nat → AState → AState × AStatus)
    (self ri : Nat) : List CompM → AState → Bool → Bool →
      AState × WalkOut
  | [], s, ruleME, lonePred => (s, .outDone ruleME lonePred false)
  | c :: rest, s, ruleME, lonePred =>
    if c.isTerminal then
      let ruleME' := ruleME && c.isOptional
      if c.terminal = 0 then
        let lonePred' := lonePred || c.hasPredicate
        if ruleME' then
          walkComps g rec self ri rest s ruleME' lonePred'
        else
          (s, .outDone ruleME' lonePred' false)
      else
        let s' := s.modify self (fun st => updateTerminalsAndLL1 st c.terminal ri)
        if ruleME' then
          walkComps g rec self ri rest s' ruleME' lonePred
        else
          (s', .outDone ruleME' lonePred false)
    else
      let other := c.nt
      let ruleME' := ruleME && (c.isOptional || (s.get other).matchesEmpty)
      if other = self then
        (s.modify self (fun st => { st with isLL1 := false }), .outIsLR)
      else
        let s' := if (s.get other).got then s else (rec other s).1
        if ((s'.get other).terminals).isEmpty then
          (s', .outDone ruleME' lonePred true)
        else
          let s'' := foldFirstSets self ri ((s'.get other).terminals) s'
          if ruleME' then
            walkComps g rec self ri rest s'' ruleME' lonePred
          else
            (s'', .outDone ruleME' lonePred false)

/-- Model of `NonTerminal::initTerminalsAndLL1(visited, rule)`
(`src/Grammar.cxx` lines 669–734): the component walk followed by the
indeterminate / matches-empty post-processing. -/
def initRuleA (g : GrammarM) (rec : Nat → AState → AState × AStatus)
    (self ri : Nat) (comps : List CompM) (s : AState) : AState × AStatus :=
  match walkComps g rec self ri comps s true false with
  | (s', .outIsLR) => (s', .stIsLR)
  | (s', .outDone ruleME lonePred subIndet) =>
    if lonePred || subIndet then
      (s'.modify self (fun st => { st with isLL1 := false, terminals := [] }),
        .stIndet)
    else if ruleME then
      ((s'.modify self
          (fun st => updateTerminalsAndLL1 st 0 ri)).modify self
        (fun st => { st with matchesEmpty := true }),
        .stOK)
    else
      (s', .stOK)

/-- The rule loop of `NonTerminal::initTerminalsAndLL1(visited)`
(`src/Grammar.cxx` lines 639–653): disabled rules are skipped, `IS_LR`
rules are collected into `lr_rules`, any other non-`OK` status clears
`lr_rules` and breaks.  `idx` is the index of the first rule of the
remaining list. -/
def rulesLoopA (g : GrammarM) (rec : Nat → AState → AState × AStatus)
    (self : Nat) : Nat → List RuleM → AState → List Nat → AStatus →
      AState × List Nat × AStatus
  | _, [], s, lr, st => (s, lr, st)
  | idx, r :: rest, s, lr, st =>
    if r.enabled then
      match initRuleA g rec self idx r.comps s with
      | (s', .stOK) => rulesLoopA g rec self (idx + 1) rest s' lr .stOK
      | (s', .stIsLR) =>
          rulesLoopA g rec self (idx + 1) rest s' (lr ++ [idx]) .stIsLR
      | (s', .stIndet) => (s', [], .stIndet)
    else
      rulesLoopA g rec self (idx + 1) rest s lr st

/-- Append of the flagged left-recursive rules to every key of the
first-set (`src/Grammar.cxx` lines 655–661). -/
def lrBroadcast (lr : List Nat) (m : TermMap) : TermMap :=
  m.map (fun kv => (kv.1, kv.2 ++ lr))

/-- Model of `NonTerminal::initTerminalsAndLL1(visited)`
(`src/Grammar.cxx` lines 621–665), fuel-indexed: the `visited` check,
the optimistic `is_ll1_ = true` / `matches_empty_ = false` reset, the
rule loop, the broadcast of `lr_rules` onto every key
(`rules.insert_after(rules.last(), lr_rules.begin(), lr_rules.end())`,
modelled by `lrBroadcast`), and setting `got_initial_terminals_`. -/
def initNT (g : GrammarM) : Nat → Nat → AState → AState × AStatus
  | 0, _, s => (s, .stOK)
  | fuel + 1, self, s =>
    if self ∈ s.visited then (s, .stOK)
    else
      let s1 := { s with visited := self :: s.visited }
      let s2 := s1.modify self
        (fun st => { st with isLL1 := true, matchesEmpty := false })
      let p := rulesLoopA g (initNT g fuel) self 0 (ntRules g self) s2 [] .stOK
      let s4 :=
        if p.2.1.isEmpty then p.1
        else p.1.modify self (fun st =>
          { st with terminals := lrBroadcast p.2.1 st.terminals })
      (s4.modify self (fun st => { st with got := true }), p.2.2)

/-- Pristine global analysis state for grammar `g` (every nonterminal as
constructed, before any lazy analysis ran). -/
def initialAState (g : GrammarM) : AState :=
  { entries := List.replicate g.length NTState.initial, visited := [] }

/-- Model of the lazy entry point `NonTerminal::initialTerminals()` for
nonterminal `n` of `g`, started from the pristine state: a fresh
`visited` set and enough fuel for the whole grammar. -/
def analyzeNT (g : GrammarM) (n : Nat) : AState × AStatus :=
  initNT g (g.length + 1) n (initialAState g)

/-- Analysis fields of `n` after its lazy analysis completed. -/
def analyzedState (g : GrammarM) (n : Nat) : NTState :=
  (analyzeNT g n).1.get n

/-- State at the top of the first (pristine) analysis of `n`, after the
`visited` insertion and the optimistic `is_ll1_` / `matches_empty_`
reset (`src/Grammar.cxx` lines 630–632). -/
def analyzeEntry (g : GrammarM) (n : Nat) : AState :=
  ({ entries := (initialAState g).entries, visited := [n] } : AState).modify n
    (fun st => { st with isLL1 := true, matchesEmpty := false })

/-- The rule-processing phase of the pristine analysis of `n`: the state,
the collected `lr_rules` and the final status, before the left-recursion
broadcast and before `got_initial_terminals_` is set. -/
def analyzePhase1 (g : GrammarM) (n : Nat) : AState × List Nat × AStatus :=
  rulesLoopA g (initNT g g.length) n 0 (ntRules g n) (analyzeEntry g n) []
    AStatus.stOK

/-- Rule indices flagged left-recursive (`lr_rules`) by the pristine
analysis of `n`. -/
def analyzeLRRules (g : GrammarM) (n : Nat) : List Nat :=
  (analyzePhase1 g n).2.1

/-- Status returned by the pristine analysis of `n`. -/
def analyzeStatus (g : GrammarM) (n : Nat) : AStatus :=
  (analyzePhase1 g n).2.2

/-- State after the left-recursion broadcast of the pristine analysis of
`n`. -/
def analyzeBroadcastState (g : GrammarM) (n : Nat) : AState :=
  if (analyzeLRRules g n).isEmpty then (analyzePhase1 g n).1
  else (analyzePhase1 g n).1.modify n (fun st =>
    { st with terminals := lrBroadcast (analyzeLRRules g n) st.terminals })

/-- Final state of the pristine analysis of `n`. -/
def analyzeFinalState (g : GrammarM) (n : Nat) : AState :=
  (analyzeBroadcastState g n).modify n (fun st => { st with got := true })

/-! ### Generic lemmas about the analysis state and term maps -/

/-- Growth relation between two term maps: every existing key keeps its
list as a prefix and only gains elements satisfying `P`, and every new
key holds a nonempty list of elements satisfying `P`. -/
def mapGrows (P : Nat → Prop) (m m' : TermMap) : Prop :=
  (∀ k l, lookupKey k m = some l →
     ∃ d, lookupKey k m' = some (l ++ d) ∧ ∀ x ∈ d, P x) ∧
  (∀ k l', lookupKey k m' = some l' → lookupKey k m = none →
     l' ≠ [] ∧ ∀ x ∈ l', P x)

/-- A term map whose lists all have at most one element. -/
def smallMap (m : TermMap) : Prop :=
  ∀ k l, lookupKey k m = some l → l.length ≤ 1

/-- A term map containing some key whose rule list has at least two
entries (the LL(1) violation witness). -/
def bigKey (m : TermMap) : Prop :=
  ∃ k l, lookupKey k m = some l ∧ 2 ≤ l.length

/-! ### Invariants threaded through the analysis recursion

`BaseInv` records the facts needed for the frame argument: the visited
set only grtows, the entry list keeps its length, and every
already-visited nonterminal other than the one being analysed keeps its
state.  `SelfProps` records how the analysed nonterminal's own state
evolves during the processing of one rule `ri`. -/

structure BaseInv (sl : Nat) (s s' : AState) : Prop where
  vis : s.visited ⊆ s'.visited
  len : s'.entries.length = s.entries.length
  frame : ∀ n, n ∈ s.visited → n ≠ sl → s'.get n = s.get n

/-- Evolution of `self`'s own analysis fields while processing rule
`ri`: the first-set only grows by indices satisfying `P`, `is_ll1_` can
only be cleared, and the all-singleton invariant is preserved. -/
structure SelfProps (P : Nat → Prop) (sl : Nat) (s s' : AState) : Prop where
  grows : mapGrows P (s.get sl).terminals (s'.get sl).terminals
  ll1Mono : (s'.get sl).isLL1 = true → (s.get sl).isLL1 = true
  small : ((s.get sl).isLL1 = true → smallMap (s.get sl).terminals) →
          ((s'.get sl).isLL1 = true → smallMap (s'.get sl).terminals)

/-- Properties of the recursive analysis call available to the callers:
already-visited nonterminals are untouched, the visited set grows and
the entry list keeps its length. -/
structure RecOK (rec : Nat → AState → AState × AStatus) : Prop where
  frame : ∀ m s n, n ∈ s.visited → ((rec m s).1.get n) = s.get n
  vis : ∀ m s, s.visited ⊆ (rec m s).1.visited
  len : ∀ m s, (rec m s).1.entries.length = s.entries.length

/-- A rule index usable under a first-set key outside the left-recursion
broadcast: an enabled rule that is not strictly left-recursive. -/
def okRuleIdx (g : GrammarM) (self x : Nat) : Prop :=
  ∃ r, (ntRules g self).get? x = some r ∧ r.enabled = true ∧
    r.isLeftRecursiveTo self = false

/-- State at the top of an analysis of `m` from state `s`: `m` inserted
into `visited`, and the optimistic `is_ll1_ = true`,
`matches_empty_ = false` reset. -/
def entryState (m : Nat) (s : AState) : AState :=
  ({ s with visited := m :: s.visited } : AState).modify m
    (fun st => { st with isLL1 := true, matchesEmpty := false })

/-- The rule-processing phase of an analysis of `m` from state `s`. -/
def phase1 (g : GrammarM) (fuel m : Nat) (s : AState) :
    AState × List Nat × AStatus :=
  rulesLoopA g (initNT g fuel) m 0 (ntRules g m) (entryState m s) []
    AStatus.stOK

/-- State after the left-recursion broadcast of an analysis of `m` from
state `s`. -/
def broadcastState (g : GrammarM) (fuel m : Nat) (s : AState) : AState :=
  if (phase1 g fuel m s).2.1.isEmpty then (phase1 g fuel m s).1
  else (phase1 g fuel m s).1.modify m (fun st =>
    { st with terminals := lrBroadcast (phase1 g fuel m s).2.1 st.terminals })

/-- A terminal component with token kind `t`. -/
def cT (t : Nat) : CompM :=
  { isTerminal := true, terminal := t, nt := 0, isOptional := false,
    hasPredicate := false }

/-- A nonterminal-reference component. -/
def cN (n : Nat) : CompM :=
  { isTerminal := false, terminal := 0, nt := n, isOptional := false,
    hasPredicate := false }

/-- A nonterminal made of enabled rules with default display flags. -/
def mkNT (rs : List (List CompM)) : NTDef :=
  { rules := rs.map (fun cs => { comps := cs, enabled := true }),
    transparent := false, hideIfDelegate := false, keepRecursion := false }

/-- Grammar `N ::= N a`: a single strictly left-recursive rule. -/
def gSelfLoop : GrammarM := [mkNT [[cN 0, cT 5]]]

/-- Grammar `N ::= a N | a`: rule 0 is recursive but not strictly
left-recursive. -/
def gRecMid : GrammarM := [mkNT [[cT 5, cN 0], [cT 5]]]

/-- Grammar `N ::= a | b`: a plain LL(1) nonterminal. -/
def gTwoTerm : GrammarM := [mkNT [[cT 5], [cT 6]]]

/-- The spec's notion of a left-recursive rule for C4: rule `i` of
nonterminal `n` contains a component referring back to `n` (this follows
the claim's words; the code's `IS_LR` flag is narrower). -/
def specLRRule (g : GrammarM) (n i : Nat) : Bool :=
  match (ntRules g n).get? i with
  | some r => r.isRecursiveTo n
  | none => false

/-- The spec's ordering property for C4, per key: every index of a
left-recursive rule (in the spec's sense) appears after all indices of
non-left-recursive rules. -/
def lrAfterNonLR (g : GrammarM) (n : Nat) : List Nat → Bool
  | [] => true
  | x :: rest =>
      if specLRRule g n x then rest.all (fun y => specLRRule g n y)
      else lrAfterNonLR g n rest

/-- The global state right before the reset step of the pristine
analysis of `n`: pristine entries, `visited = [n]`. -/
def entryBase (g : GrammarM) (n : Nat) : AState :=
  { entries := (initialAState g).entries, visited := [n] }

/-- Grammar `N ::= N a | b`: rule 0 is flagged `IS_LR` and broadcast. -/
def gLrPlus : GrammarM := [mkNT [[cN 0, cT 5], [cT 6]]]

/-! ## SPPF model (`include/wrparse/SPPF.h`, `src/SPPF.cxx`,
`Parser::GLL::getNode*` in `src/Parser.cxx`)

Heap objects become arena indices: an `SPPFNode*` is an index into
`SState.nodes`, a `Token*` is an index into the parser's token list.
`bits_` (the node kind together with the nonterminal / slot pointer) is
modelled by `SLabel`.  `sppf_nodes_` (the hash-consing set) is the list
`consed`; `SPPFNode::operator==` compares `bits_`, `firstToken()` and
`last_token_` only, never the children. -/

/-- A grammar slot: component `comp` of rule `rule` of nonterminal
`nt` (`GrammarAddress`); `comp` may equal the component count, playing
`rule.end()`. -/
structure SlotRef where
  nt : Nat
  rule : Nat
  comp : Nat
  deriving Repr, DecidableEq

/-- `bits_` of an `SPPFNode`: the kind and the nonterminal / slot it is
labelled with. -/
inductive SLabel where
  | termL
  | ntL (n : Nat)
  | intL (s : SlotRef)
  | packL (s : SlotRef)
  deriving Repr, DecidableEq

/-- One SPPF node: label, `first_token_` (`none` = empty node),
`last_token_` and the child list. -/
structure SNode where
  label : SLabel
  firstTok : Option Nat
  lastTok : Nat
  children : List Nat
  deriving Repr, DecidableEq

/-- Value used for out-of-range arena reads. -/
def dummyNode : SNode :=
  { label := .termL, firstTok := none, lastTok := 0, children := [] }

/-- SPPF arena plus the `sppf_nodes_` hash-consing set. -/
structure SState where
  nodes : List SNode
  consed : List Nat
  deriving Repr, DecidableEq

/-- Read node `i` of the arena. -/
def getN (st : SState) (i : Nat) : SNode :=
  st.nodes.getD i dummyNode

/-- `SPPFNode::operator==` (`src/SPPF.cxx` lines 355–364): `bits_`,
`firstToken()` and `last_token_`; children are not compared. -/
def SNode.keyEq (a b : SNode) : Bool :=
  decide (a.label = b.label) && decide (a.firstTok = b.firstTok) &&
    decide (a.lastTok = b.lastTok)

def SNode.isPackedB (a : SNode) : Bool :=
  match a.label with
  | .packL _ => true
  | _ => false

def SNode.isNonTerminalB (a : SNode) : Bool :=
  match a.label with
  | .ntL _ => true
  | _ => false

def SNode.isSymbolB (a : SNode) : Bool :=
  match a.label with
  | .ntL _ => true
  | .termL => true
  | _ => false

/-- `empty()` (`SPPF.h` line 406): no first token. -/
def SNode.emptyB (a : SNode) : Bool :=
  a.firstTok.isNone

/-- `Parser::GLL::getNode` (`src/Parser.cxx` lines 1050–1066): look the
key up in `sppf_nodes_`; if absent, insert it (here: materialise it in
the arena).  Returns the node and whether it was inserted. -/
def getNode (st : SState) (key : SNode) : SState × Nat × Bool :=
  match st.consed.find? (fun i => SNode.keyEq (getN st i) key) with
  | some i => (st, i, false)
  | none =>
      ({ nodes := st.nodes ++ [key], consed := st.consed ++ [st.nodes.length] },
       st.nodes.length, true)

/-- `SPPFNode::addChild` (`src/SPPF.cxx` lines 482–495): a packed child
of a node that already has children is prepended, otherwise the child is
appended; `other == this` throws `std::logic_error`. -/
def addChildE (st : SState) (p c : Nat) : Except Unit SState :=
  if c = p then .error ()
  else
    let pn := getN st p
    let pn2 :=
      if (getN st c).isPackedB && !pn.children.isEmpty then
        { pn with children := c :: pn.children }
      else
        { pn with children := pn.children ++ [c] }
    .ok { st with nodes := st.nodes.set p pn2 }

/-- The rule a slot belongs to. -/
def ruleMM (g : GrammarM) (s : SlotRef) : RuleM :=
  (ntRules g s.nt).getD s.rule { comps := [], enabled := true }

/-- The component a slot points at. -/
def slotComp (g : GrammarM) (s : SlotRef) : CompM :=
  (ruleMM g s).comps.getD s.comp
    { isTerminal := true, terminal := 0, nt := 0, isOptional := false,
      hasPredicate := false }

/-- `Component::isRecursive` (`src/Grammar.cxx` lines 97–101): the
component refers back to its rule's own nonterminal. -/
def slotIsRecursive (g : GrammarM) (s : SlotRef) : Bool :=
  (slotComp g s).refersTo s.nt

/-- `std::next(slot) == rule.end()` in `getNodeP`. -/
def onLastSlot (g : GrammarM) (s : SlotRef) : Bool :=
  decide (s.comp + 1 = (ruleMM g s).comps.length)

/-- `keep_recursion` display flag of a nonterminal. -/
def keepRec (g : GrammarM) (n : Nat) : Bool :=
  (g.getD n NTDef.defaultNT).keepRecursion

/-- `Parser::GLL::getPackedNode` (`src/Parser.cxx` lines 1070–1091):
search the parent's children for a packed node with the same slot and
pivot; otherwise a fresh packed node is allocated (it is never
hash-consed). -/
def getPackedNode (st : SState) (parent : Nat) (slot : SlotRef)
    (pivot : Nat) (emp : Bool) : SState × Nat × Bool :=
  match (getN st parent).children.find? (fun c =>
      let cn := getN st c
      cn.isPackedB && decide (cn.label = .packL slot) &&
        (if emp then cn.emptyB && decide (cn.lastTok = pivot)
         else !cn.emptyB && decide (cn.firstTok = some pivot))) with
  | some c => (st, c, false)
  | none =>
      ({ st with nodes := st.nodes ++
          [{ label := .packL slot, firstTok := if emp then none else some pivot,
             lastTok := pivot, children := [] }] },
       st.nodes.length, true)

/-- The packed-node phase common to both branches of `getNodeP`
(`src/Parser.cxx` lines 1169–1181). -/
def packedPhase (st : SState) (ret : Nat) (slot : SlotRef) (pivot : Nat)
    (emp : Bool) (left : Option Nat) (right : Nat) :
    Except Unit (SState × Nat) := do
  let p := getPackedNode st ret slot pivot emp
  if p.2.2 then
    let st1 := p.1
    let pid := p.2.1
    let st2 ← match left with
      | some l => addChildE st1 pid l
      | none => pure st1
    let st3 ← addChildE st2 pid right
    let st4 ← addChildE st3 ret pid
    pure (st4, ret)
  else
    pure (st, ret)

/-- Model of `Parser::GLL::getNodeP` (`src/Parser.cxx` lines
1105–1183): extent computation, the nonterminal node on the last slot /
intermediate node otherwise, the recursion-flattening branch, and the
packed-node step. -/
def getNodeP (g : GrammarM) (slot : SlotRef) (left : Option Nat)
    (right : Nat) (st : SState) : Except Unit (SState × Nat) :=
  let rn := getN st right
  let left_extent : Option Nat :=
    match left with
    | some l =>
        let ln := getN st l
        if ln.emptyB = false then ln.firstTok
        else if rn.emptyB = false then some ln.lastTok
        else none
    | none => if rn.emptyB = false then rn.firstTok else none
  let pivot : Nat := if rn.emptyB then rn.lastTok else rn.firstTok.getD 0
  let right_extent : Nat :=
    if rn.emptyB then
      match left with
      | some l => (getN st l).lastTok
      | none => rn.lastTok
    else rn.lastTok
  if onLastSlot g slot then
    let r1 := getNode st { label := .ntL slot.nt, firstTok := left_extent,
                           lastTok := right_extent, children := [] }
    packedPhase r1.1 r1.2.1 slot pivot rn.emptyB left right
  else
    let r1 := getNode st { label := .intL slot, firstTok := left_extent,
                           lastTok := right_extent, children := [] }
    let st1 := r1.1
    let ret := r1.2.1
    if left.isNone && rn.isNonTerminalB &&
        decide (rn.label = .ntL slot.nt) && slotIsRecursive g slot &&
        !keepRec g slot.nt then do
      let st2 ← rn.children.foldlM (fun acc c => addChildE acc ret c) st1
      pure (st2, ret)
    else
      packedPhase st1 ret slot pivot rn.emptyB left right

/-- Number of packed nodes in the arena. -/
def countPacked (st : SState) : Nat :=
  st.nodes.countP (fun nd => nd.isPackedB)

/-- Arena state after materialising a fresh hash-consed node. -/
def pushNode (st : SState) (key : SNode) : SState :=
  { nodes := st.nodes ++ [key], consed := st.consed ++ [st.nodes.length] }

/-- The intermediate-node key `getNodeP` builds when there is no left
operand. -/
def flattenKey (st : SState) (slot : SlotRef) (right : Nat) : SNode :=
  { label := .intL slot,
    firstTok := if (getN st right).emptyB = false then (getN st right).firstTok
                else none,
    lastTok := (getN st right).lastTok,
    children := [] }

/-- Slot for the C2 counterexample: the final (self-recursive) component
of rule 0 of `N ::= a N | a`. -/
def slotC2 : SlotRef := ⟨0, 0, 1⟩

/-- Arena for the C2 counterexample: node 0 is a nonterminal symbol node
for `N` with one packed child (node 2, labelled by a different slot);
node 1 is the terminal child inside it. -/
def stC2 : SState :=
  { nodes :=
      [ { label := .ntL 0, firstTok := some 1, lastTok := 1, children := [2] },
        { label := .termL, firstTok := some 1, lastTok := 1, children := [] },
        { label := .packL ⟨0, 1, 0⟩, firstTok := some 1, lastTok := 1,
          children := [1] } ],
    consed := [0, 1, 2] }

/-- Result of running `getNodeP` on the C2 counterexample input. -/
def c2Result : SState × Nat :=
  match getNodeP gRecMid slotC2 none 0 stC2 with
  | .ok p => p
  | .error _ => (stC2, 0)

/-- Grammar slot for the C2 witness: the leading self-recursive
component of rule 0 of `N ::= N a | b`. -/
def slotW : SlotRef := ⟨0, 0, 0⟩

/-- Arena for the C2 witness: the right operand (node 0) is a
nonterminal symbol node of `N` with one packed child. -/
def stW : SState :=
  { nodes :=
      [ { label := .ntL 0, firstTok := some 0, lastTok := 0, children := [1] },
        { label := .packL ⟨0, 1, 0⟩, firstTok := some 0, lastTok := 0,
          children := [] } ],
    consed := [0, 1] }

/-! ## Parser model (`src/Parser.cxx`, `src/Diagnostics.cxx`)

The `Parser` object state (`PState`) holds the lexer binding, a
scripted lexer input, the token list `tokens_`, the deduplication set
`diagnostics_`, the per-severity counters of `DiagnosticCounter`, and a
log of the diagnostics delivered to handlers.  `Token*` values are
indices into `tokens`.  Diagnostic severities follow
`Diagnostic::Category`: 0 info, 1 warning, 2 error, 3 fatal error.
Predicates and pre/post parse actions are modelled as succeeding (the
claims under study attach none).  A nonterminal's first-set and
matches-empty flag are those produced by its own lazy analysis
(`analyzedState`).  Thrown `Diagnostic`s become `Except.error (some ps)`
carrying the parser state; `std::logic_error` and fuel exhaustion become
`Except.error none`, so running out of fuel can never imitate a parse
result. -/

/-- A lexed token: kind and input offset. -/
structure TokenE where
  kind : Nat
  offset : Nat
  deriving Repr, DecidableEq

def tokenDefault : TokenE := { kind := 1, offset := 0 }

/-- A diagnostic: severity category, message id, input offset. -/
structure DiagM where
  sev : Nat
  id : Nat
  offset : Nat
  deriving Repr, DecidableEq

/-- `Parser` object state. -/
structure PState where
  lexerSet : Bool
  lexInput : List TokenE
  tokens : List TokenE
  dedup : List (Nat × Nat)
  delivered : List DiagM
  nInfo : Nat
  nWarn : Nat
  nError : Nat
  nFatal : Nat
  errorLimit : Nat
  deriving Repr, DecidableEq

/-- `DiagnosticCounter::onDiagnostic` (`src/Diagnostics.cxx` lines
53–72). -/
def countDiag (ps : PState) (d : DiagM) : PState :=
  if d.sev = 0 then { ps with nInfo := ps.nInfo + 1 }
  else if d.sev = 1 then { ps with nWarn := ps.nWarn + 1 }
  else if d.sev = 2 then { ps with nError := ps.nError + 1 }
  else if d.sev = 3 then { ps with nFatal := ps.nFatal + 1 }
  else ps

def totalCount (ps : PState) : Nat :=
  ps.nInfo + ps.nWarn + ps.nError + ps.nFatal

/-- `Parser::emit` (`src/Parser.cxx` lines 1418–1430): if `(id, offset)`
inserts into the dedup set, deliver to handlers, count, and throw when
fatal; otherwise do nothing. -/
def emitP (ps : PState) (d : DiagM) : Except PState PState :=
  if ps.dedup.contains (d.id, d.offset) then .ok ps
  else
    let ps1 := { ps with dedup := ps.dedup ++ [(d.id, d.offset)],
                         delivered := ps.delivered ++ [d] }
    let ps2 := countDiag ps1 d
    if 3 ≤ d.sev then .error ps2 else .ok ps2

/-- The state `emitP` leaves behind, throw or no throw. -/
def emitOut (ps : PState) (d : DiagM) : PState :=
  match emitP ps d with
  | .ok p => p
  | .error p => p

/-- Diagnostic id of the `"lexer not returning any tokens"` fatal
error. -/
def lexFatalId : Nat := 99

/-- Diagnostic id of the `"expected %s"` error (the format string is the
id, so every `report` diagnostic shares it). -/
def expectId : Nat := 100

/-- The strike loop of `Parser::nextToken` (`src/Parser.cxx` lines
1267–1280): `TOK_NULL` results count strikes, the third strike is fatal;
an exhausted scripted lexer yields `TOK_EOF` forever. -/
def lexStrike : List TokenE → Nat → Option TokenE × List TokenE
  | [], _ => (some tokenDefault, [])
  | t :: rest, strike =>
      if t.kind = 0 then
        if strike + 1 = 3 then (none, rest) else lexStrike rest (strike + 1)
      else (some t, rest)

/-- `Parser::nextToken` (`src/Parser.cxx` lines 1258–1287): lex a fresh
token when at the end of the list, otherwise step to the next stored
token; `pos = none` asks for the first token. -/
def nextTokenP (ps : PState) (pos : Option Nat) :
    Except PState (PState × Nat) :=
  if ps.tokens.isEmpty || pos = some (ps.tokens.length - 1) then
    match lexStrike ps.lexInput 0 with
    | (some t, rest) =>
        .ok ({ ps with lexInput := rest, tokens := ps.tokens ++ [t] },
             ps.tokens.length)
    | (none, rest) =>
        let ps1 := { ps with lexInput := rest,
                             tokens := ps.tokens ++ [{ kind := 0, offset := 0 }] }
        match emitP ps1 { sev := 3, id := lexFatalId, offset := 0 } with
        | .error ps2 => .error ps2
        | .ok ps2 =>
            match lexStrike ps2.lexInput 1000 with
            | (some t, rest2) =>
                .ok ({ ps2 with lexInput := rest2,
                                tokens := ps2.tokens ++ [t] },
                     ps2.tokens.length)
            | (none, _) => .error ps2
  else
    match pos with
    | some p => .ok (ps, p + 1)
    | none => .ok (ps, 0)

/-- `Parser::reset` (`src/Parser.cxx` lines 1300–1307): clear the token
list, the dedup set and all severity counters; the lexer binding stays. -/
def resetP (ps : PState) : PState :=
  { ps with tokens := [], dedup := [], nInfo := 0, nWarn := 0,
            nError := 0, nFatal := 0 }

/-- `NonTerminal::firstSet` as observed by the parser: the lazily
computed `initial_terminals_`. -/
def firstSetOf (g : GrammarM) (n : Nat) : TermMap :=
  (analyzedState g n).terminals

/-- `NonTerminal::matchesEmpty` as observed by the parser. -/
def matchesEmptyOf (g : GrammarM) (n : Nat) : Bool :=
  (analyzedState g n).matchesEmpty

/-- `Parser::GLL::testFollow` (`src/Parser.cxx` lines 882–909) fused
with `Parser::GLL::test` (lines 868–877), structurally recursive on the
remaining component suffix. -/
def testFollowM (g : GrammarM) (k : Nat) : List CompM → Bool
  | [] => true
  | c :: rest =>
      if c.isTerminal then
        if c.terminal = k then true
        else if c.isOptional then testFollowM g k rest
        else false
      else
        (firstSetOf g c.nt).isEmpty
          || (lookupKey k (firstSetOf g c.nt)).isSome
          || (matchesEmptyOf g c.nt && testFollowM g k rest)

/-- `Parser::GLL::test` on a nonterminal with trailing components. -/
def testM (g : GrammarM) (k : Nat) (nt : Nat) (trailing : List CompM) :
    Bool :=
  (firstSetOf g nt).isEmpty
    || (lookupKey k (firstSetOf g nt)).isSome
    || (matchesEmptyOf g nt && testFollowM g k trailing)

/-- A GSS node identity: `(return_address, input_pos)`; the base node
`u0` is `(none, none)`. -/
structure GssKey where
  ret : Option SlotRef
  pos : Option Nat
  deriving Repr, DecidableEq

/-- A GSS edge: target node and the SPPF node on the edge. -/
structure GEdge where
  child : GssKey
  sppf : Option Nat
  deriving Repr, DecidableEq

/-- An element of the GLL visited set `U`. -/
structure VItem where
  pos : Nat
  addr : Option SlotRef
  head : GssKey
  sppf : Option Nat
  deriving Repr, DecidableEq

/-- A GLL descriptor. -/
structure Desc where
  addr : Option SlotRef
  head : GssKey
  pos : Nat
  sppf : Option Nat
  depth : Nat
  advance : Bool
  deriving Repr, DecidableEq

/-- A recorded mismatch (`Parser::GLL::Mismatch`): kind (1 `NO_RULE`, 2
`TERMINAL_MISMATCH`, 3 `PREDICATE_FAILED`, 4 `POST_ACTION_FAILED`), the
descriptor's address and input position. -/
structure MismatchM where
  kind : Nat
  addr : Option SlotRef
  pos : Nat
  deriving Repr, DecidableEq

/-- The GLL engine state. -/
structure GLLState where
  ps : PState
  gssNodes : List GssKey
  gssEdges : List (GssKey × List GEdge)
  popped : List (GssKey × Nat)
  visited : List VItem
  worklist : List Desc
  sppf : SState
  matched : Option Nat
  recovery : Option Nat
  possErrors : List MismatchM
  deriving Repr, DecidableEq

def edgesOf (st : GLLState) (k : GssKey) : List GEdge :=
  (((st.gssEdges.find? (fun kv => decide (kv.1 = k))).map Prod.snd).getD [])

def setEdgesL (l : List (GssKey × List GEdge)) (k : GssKey)
    (es : List GEdge) : List (GssKey × List GEdge) :=
  if l.any (fun kv => decide (kv.1 = k)) then
    l.map (fun kv => if kv.1 = k then (k, es) else kv)
  else l ++ [(k, es)]

/-- `GSS::emplace`: insert the node if absent; reports insertion. -/
def gssAddNode (st : GLLState) (k : GssKey) : GLLState × Bool :=
  if st.gssNodes.contains k then (st, false)
  else ({ st with gssNodes := st.gssNodes ++ [k] }, true)

/-- `GSS::Node::addChild` (`src/Parser.cxx` lines 171–189): dedup on the
`(child, sppf_node)` pair. -/
def gssAddEdge (st : GLLState) (k : GssKey) (e : GEdge) : GLLState × Bool :=
  let es := edgesOf st k
  if es.any (fun x => decide (x.child = e.child) && decide (x.sppf = e.sppf))
  then (st, false)
  else ({ st with gssEdges := setEdgesL st.gssEdges k (es ++ [e]) }, true)

/-- `Parser::GLL::add` (`src/Parser.cxx` lines 913–945): enter the
descriptor into `U` and the worklist `R` unless already visited. -/
def addG (st : GLLState) (d : Desc) : GLLState :=
  if st.visited.contains
      { pos := d.pos, addr := d.addr, head := d.head, sppf := d.sppf }
  then st
  else
    { st with
      visited := st.visited ++
        [{ pos := d.pos, addr := d.addr, head := d.head, sppf := d.sppf }],
      worklist := d :: st.worklist }

/-- `Parser::GLL::visited` (`src/Parser.cxx` lines 851–860). -/
def visitedQ (st : GLLState) (addr : Option SlotRef) (head : GssKey)
    (pos : Nat) (sppf : Option Nat) : Bool :=
  st.visited.contains { pos := pos, addr := addr, head := head, sppf := sppf }

/-- `Parser::GLL::hideDelegateOrTransparent` (`src/Parser.cxx` lines
1010–1045): substitute the single symbol grandchild under a lone packed
child of a must-hide rule. -/
def hideDelegateM (g : GrammarM) (st : SState) (z : Nat) : Nat :=
  let nd := getN st z
  match nd.children with
  | [c] =>
      match (getN st c).label with
      | .packL slot =>
          if ruleMustHide g slot.nt (ruleMM g slot) then
            match (getN st c).children with
            | [c2] => if (getN st c2).isSymbolB then c2 else z
            | _ => z
          else z
      | _ => z
  | _ => z

/-- `getNodeP` with engine-level error propagation (`std::logic_error`
from `addChild` is not a `Diagnostic`). -/
def getNodePE (g : GrammarM) (slot : SlotRef) (left : Option Nat)
    (right : Nat) (st : SState) : Except (Option PState) (SState × Nat) :=
  match getNodeP g slot left right st with
  | .ok v => .ok v
  | .error _ => .error none

/-- `Parser::GLL::getNodeT`. -/
def getNodeTM (st : SState) (pos : Nat) : SState × Nat :=
  let r := getNode st { label := .termL, firstTok := some pos, lastTok := pos,
                        children := [] }
  (r.1, r.2.1)

/-- `Parser::GLL::getEmptyNodeAt`. -/
def getEmptyAt (st : SState) (pos : Nat) : SState × Nat :=
  let r := getNode st { label := .termL, firstTok := none, lastTok := pos,
                        children := [] }
  (r.1, r.2.1)

/-- Offset of token index `i`. -/
def offAt (ps : PState) (i : Nat) : Nat :=
  (ps.tokens.getD i tokenDefault).offset

/-- The mismatch-recording part of `Parser::GLL::endRule`
(`src/Parser.cxx` lines 806–813). -/
def endRuleFailG (st : GLLState) (addr : Option SlotRef) (pos : Nat)
    (kind : Nat) : GLLState :=
  if st.recovery.isNone
      || decide (offAt st.ps pos ≥ offAt st.ps (st.recovery.getD 0)) then
    { st with recovery := some pos,
              possErrors := { kind := kind, addr := addr, pos := pos }
                :: st.possErrors }
  else st

/-- The `matched_` transition of one top-level pop edge
(`if (!matched_ || (parsed_node->lastToken()->offset() >
matched_->lastToken()->offset())) matched_ = parsed_node`). -/
def matchedUpd (ps : PState) (sp : SState) (z : Nat) (m0 : Option Nat) :
    Option Nat :=
  match m0 with
  | none => some z
  | some m =>
      if offAt ps ((getN sp z).lastTok) > offAt ps ((getN sp m).lastTok)
      then some z else some m

/-- One GSS edge step of `Parser::GLL::pop` (`src/Parser.cxx` lines
946–978): a non-null return address builds the parent SPPF node and
requeues past it; a null return address is a top-level match and updates
`matched_` when the new parse ends strictly further right. -/
def popStep (g : GrammarM) (head : GssKey) (z : Nat) (depth : Nat)
    (st : GLLState) (e : GEdge) : Except (Option PState) GLLState :=
  match head.ret with
  | some ra => do
      let r ← getNodePE g ra e.sppf (hideDelegateM g st.sppf z) st.sppf
      let st1 := { st with sppf := r.1 }
      pure (addG st1
        { addr := some { ra with comp := ra.comp + 1 }, head := e.child,
          pos := (getN st1.sppf z).lastTok, sppf := some r.2,
          depth := depth - 1, advance := !(getN st1.sppf z).emptyB })
  | none =>
      let st1 := { st with matched := matchedUpd st.ps st.sppf z st.matched }
      pure (addG st1
        { addr := none, head := e.child,
          pos := (getN st1.sppf z).lastTok, sppf := none,
          depth := depth - 1, advance := !(getN st1.sppf z).emptyB })

/-- `Parser::GLL::pop`: record the popped pair, then process every GSS
edge of the head. -/
def popG (g : GrammarM) (st : GLLState) (head : GssKey) (z : Nat)
    (depth : Nat) : Except (Option PState) GLLState :=
  let st0 := if st.popped.contains (head, z) then st
             else { st with popped := st.popped ++ [(head, z)] }
  (edgesOf st0 head).foldlM (popStep g head z depth) st0

/-- `Parser::GLL::create` (`src/Parser.cxx` lines 980–1008): find or
create the GSS node `(return_address, input_pos)`, add the edge, and on
a new edge to a pre-existing node replay the already-popped parses down
it. -/
def createG (g : GrammarM) (st : GLLState) (ra : SlotRef) (head : GssKey)
    (pos : Nat) (sppf : Option Nat) (depth : Nat) :
    Except (Option PState) (GLLState × GssKey) :=
  let v : GssKey := { ret := some ra, pos := some pos }
  let p1 := gssAddNode st v
  let p2 := gssAddEdge p1.1 v { child := head, sppf := sppf }
  if p2.2 && !p1.2 then do
    let stF ← (p2.1.popped.filter (fun pz => decide (pz.1 = v))).foldlM
      (fun acc pz => do
        let r ← getNodePE g ra sppf (hideDelegateM g acc.sppf pz.2) acc.sppf
        let acc2 := { acc with sppf := r.1 }
        pure (addG acc2
          { addr := some { ra with comp := ra.comp + 1 }, head := head,
            pos := (getN acc2.sppf pz.2).lastTok, sppf := some r.2,
            depth := depth - 1, advance := !(getN acc2.sppf pz.2).emptyB }))
      p2.1
    pure (stF, v)
  else
    pure (p2.1, v)

/-- `Parser::GLL::report` (`src/Parser.cxx` lines 501–560): `NO_RULE`
and `TERMINAL_MISMATCH` emit an `"expected %s"` error at the recovery
position; semantic mismatch kinds emit nothing. -/
def reportG (ps : PState) (err : MismatchM) (recIdx : Nat) :
    Except PState PState :=
  if err.kind = 1 || err.kind = 2 then
    emitP ps { sev := 2, id := expectId, offset := offAt ps recIdx }
  else
    .ok ps

/-- Defunctionalised continuations of the GLL engine: processing a
descriptor, the component loop from a slot, `beginNonTerminal`, and the
main worklist loop. -/
inductive Req where
  | rParse (d : Desc)
  | rParseAt (a : SlotRef) (head : GssKey) (pos : Nat) (sppf : Option Nat)
      (depth : Nat) (advance : Bool)
  | rBeginNT (nt : Nat) (head : GssKey) (pos : Nat) (depth : Nat)
  | rMainLoop

/-- Fueled interpreter of the GLL engine (`Parser::GLL::parse`,
`beginNonTerminal`, `beginRule` and the main loop of `parseMain`,
`src/Parser.cxx` lines 567–786 and 451–486).  Fuel exhaustion is
`Except.error none`, never a parse result.  `beginRule` is inlined at
its two call sites (pre-parse actions are modelled as succeeding, so it
adds or immediately parses the rule's first slot and reports `true`). -/
def run (g : GrammarM) : Nat → Req → GLLState →
    Except (Option PState) (GLLState × Bool)
  | 0, _, _ => .error none
  | fuel + 1, .rParse d, st =>
    match d.addr with
    | none => .ok (st, true)
    | some a =>
        run g fuel (.rParseAt a d.head d.pos d.sppf d.depth d.advance) st
  | fuel + 1, .rParseAt a head pos sppf depth advance, st =>
    let comps := (ruleMM g a).comps
    if a.comp = comps.length then
      match sppf with
      | none => .error none
      | some z =>
          match popG g st head z depth with
          | .ok st' => .ok (st', true)
          | .error e => .error e
    else
      let adv : Except (Option PState) (GLLState × Nat) :=
        if advance then
          match nextTokenP st.ps (some pos) with
          | .ok pr => .ok ({ st with ps := pr.1 }, pr.2)
          | .error ps' => .error (some ps')
        else .ok (st, pos)
      match adv with
      | .error e => .error e
      | .ok (st1, pos1) =>
        let c := comps.getD a.comp
          { isTerminal := true, terminal := 0, nt := 0, isOptional := false,
            hasPredicate := false }
        let tk := (st1.ps.tokens.getD pos1 tokenDefault).kind
        if c.isTerminal then
          if c.terminal = 0 || c.terminal = tk then
            let r := getNodeTM st1.sppf pos1
            let st2 := { st1 with sppf := r.1 }
            if a.comp = 0 && decide (2 ≤ comps.length) then
              run g fuel (.rParseAt { a with comp := a.comp + 1 } head pos1
                (some r.2) depth true) st2
            else
              match getNodePE g a sppf r.2 st2.sppf with
              | .error e => .error e
              | .ok sy =>
                  run g fuel (.rParseAt { a with comp := a.comp + 1 } head
                    pos1 (some sy.2) depth true) { st2 with sppf := sy.1 }
          else if !c.isOptional then
            .ok (endRuleFailG st1 (some a) pos1 2, true)
          else
            let r := getEmptyAt st1.sppf pos1
            match getNodePE g a sppf r.2 r.1 with
            | .error e => .error e
            | .ok sy =>
                run g fuel (.rParseAt { a with comp := a.comp + 1 } head pos1
                  (some sy.2) depth false) { st1 with sppf := sy.1 }
        else
          let retSlot : SlotRef := { a with comp := a.comp + 1 }
          let sk := c.isOptional && !matchesEmptyOf g c.nt &&
            !visitedQ st1 (some retSlot) head pos1 sppf
          if testM g tk c.nt (comps.drop (a.comp + 1)) then
            match createG g st1 a head pos1 sppf (depth + 1) with
            | .error e => .error e
            | .ok stv =>
              match run g fuel (.rBeginNT c.nt stv.2 pos1 (depth + 1))
                  stv.1 with
              | .error e => .error e
              | .ok (st3, ok1) =>
                if ok1 || sk then
                  if !sk then .ok (st3, true)
                  else
                    let r := getEmptyAt st3.sppf pos1
                    match getNodePE g a sppf r.2 r.1 with
                    | .error e => .error e
                    | .ok sy =>
                        run g fuel (.rParseAt retSlot head pos1 (some sy.2)
                          depth false) { st3 with sppf := sy.1 }
                else
                  .ok (endRuleFailG st3 (some a) pos1 1, true)
          else
            if sk then
              let r := getEmptyAt st1.sppf pos1
              match getNodePE g a sppf r.2 r.1 with
              | .error e => .error e
              | .ok sy =>
                  run g fuel (.rParseAt retSlot head pos1 (some sy.2)
                    depth false) { st1 with sppf := sy.1 }
            else
              .ok (endRuleFailG st1 (some a) pos1 1, true)
  | fuel + 1, .rBeginNT nt head pos depth, st =>
    let ts := firstSetOf g nt
    let k := (st.ps.tokens.getD pos tokenDefault).kind
    if ts.isEmpty then
      let st2 := (List.range (ntRules g nt).length).foldl
        (fun acc ri => addG acc
          { addr := some ⟨nt, ri, 0⟩, head := head, pos := pos,
            sppf := none, depth := depth, advance := false }) st
      .ok (st2, decide (0 < (ntRules g nt).length))
    else
      match lookupKey k ts with
      | some idxs =>
          if !matchesEmptyOf g nt && decide (idxs.length = 1) then
            match run g fuel (.rParse
                { addr := some ⟨nt, idxs.headD 0, 0⟩, head := head,
                  pos := pos, sppf := none, depth := depth,
                  advance := false }) st with
            | .error e => .error e
            | .ok (st2, _) => .ok (st2, true)
          else
            let st1 := idxs.foldl (fun acc ri => addG acc
              { addr := some ⟨nt, ri, 0⟩, head := head, pos := pos,
                sppf := none, depth := depth, advance := false }) st
            let extra := if matchesEmptyOf g nt then (lookupKey 0 ts).getD []
                         else []
            let st2 := extra.foldl (fun acc ri => addG acc
              { addr := some ⟨nt, ri, 0⟩, head := head, pos := pos,
                sppf := none, depth := depth, advance := false }) st1
            .ok (st2, decide (0 < idxs.length + extra.length))
      | none =>
          let extra := if matchesEmptyOf g nt then (lookupKey 0 ts).getD []
                       else []
          let st2 := extra.foldl (fun acc ri => addG acc
            { addr := some ⟨nt, ri, 0⟩, head := head, pos := pos,
              sppf := none, depth := depth, advance := false }) st
          .ok (st2, decide (0 < extra.length))
  | fuel + 1, .rMainLoop, st =>
    match st.worklist with
    | [] => .ok (st, true)
    | d :: rest =>
        match run g fuel (.rParse d) { st with worklist := rest } with
        | .error e => .error e
        | .ok (st2, _) => run g fuel .rMainLoop st2

/-- Fresh engine state at the top of `parseMain`. -/
def initGLL (ps : PState) (inputStart : Nat) : GLLState :=
  { ps := ps,
    gssNodes := [⟨none, some inputStart⟩, ⟨none, none⟩],
    gssEdges := [(⟨none, some inputStart⟩, [⟨⟨none, none⟩, none⟩])],
    popped := [], visited := [], worklist := [],
    sppf := { nodes := [], consed := [] },
    matched := none, recovery := none, possErrors := [] }

/-- `Parser::GLL::parseMain` (`src/Parser.cxx` lines 451–497). -/
def parseMainP (g : GrammarM) (start : Nat) (fuel : Nat) (ps : PState)
    (inputStart : Nat) : Except (Option PState) GLLState :=
  let st := initGLL ps inputStart
  match run g fuel
      (.rBeginNT start { ret := none, pos := some inputStart } inputStart 0)
      st with
  | .error e => .error e
  | .ok (st1, ok1) =>
    let errRec : MismatchM := { kind := 1, addr := none, pos := inputStart }
    let st2 := if ok1 then st1
               else { st1 with recovery := some inputStart,
                               possErrors := errRec :: st1.possErrors }
    match run g fuel .rMainLoop st2 with
    | .error e => .error e
    | .ok (st3, _) =>
      if st3.matched.isNone && st3.recovery.isSome &&
          !st3.possErrors.isEmpty then
        match reportG st3.ps
            (st3.possErrors.headD { kind := 0, addr := none, pos := 0 })
            (st3.recovery.getD 0) with
        | .ok ps2 =>
            .ok { st3 with ps := ps2, possErrors := st3.possErrors.tail }
        | .error ps2 => .error (some ps2)
      else .ok st3

/-- `Parser::parse` (`src/Parser.cxx` lines 1322–1390): the guard chain,
the engine run with the scope-exit dedup clearing, the `Diagnostic`
catch, and the token surgery around a successful result. -/
def parseP (g : GrammarM) (start : Nat) (fuel : Nat) (ps : PState) :
    Except Unit (Option Nat × PState) :=
  if ps.lexerSet = false then .error ()
  else if (ntRules g start).isEmpty then .ok (none, ps)
  else if 0 < ps.nFatal then .ok (none, ps)
  else
    match nextTokenP ps none with
    | .error ps2 => .ok (none, ps2)
    | .ok (ps1, idx0) =>
      if (ps1.tokens.getD idx0 tokenDefault).kind = 1 then .ok (none, ps1)
      else
        match parseMainP g start fuel ps1 idx0 with
        | .error none => .error ()
        | .error (some ps2) => .ok (none, { ps2 with dedup := [] })
        | .ok stF =>
          let psE := { stF.ps with dedup := [] }
          match stF.matched with
          | none => .ok (none, psE)
          | some m =>
              let nd := getN stF.sppf m
              let fi := nd.firstTok.getD nd.lastTok
              .ok (some m,
                { psE with
                  tokens := (psE.tokens.drop fi).take (nd.lastTok + 1 - fi) })

/-- Grammar whose single nonterminal has one rule, disabled
(`N ::= a` with the rule's enabled flag cleared; token kind 7 plays
`a`). -/
def gDis : GrammarM :=
  [ { rules := [{ comps := [cT 7], enabled := false }], transparent := false,
      hideIfDelegate := false, keepRecursion := false } ]

/-- Grammar with a nonterminal that has no rules at all. -/
def gNoRules : GrammarM :=
  [ { rules := [], transparent := false, hideIfDelegate := false,
      keepRecursion := false } ]

/-- Fresh parser bound to a lexer scripting one `a` token then EOF. -/
def psC7 : PState :=
  { lexerSet := true, lexInput := [⟨7, 0⟩, ⟨1, 1⟩], tokens := [],
    dedup := [], delivered := [], nInfo := 0, nWarn := 0, nError := 0,
    nFatal := 0, errorLimit := 1000 }

/-- Parser state whose lexer scripts a lone EOF; the nonempty dedup set
shows the guard path touches nothing else. -/
def psEof : PState :=
  { lexerSet := true, lexInput := [⟨1, 5⟩], tokens := [],
    dedup := [(3, 4)], delivered := [], nInfo := 0, nWarn := 0,
    nError := 0, nFatal := 0, errorLimit := 1000 }

/-- A parser state that has already counted a fatal error. -/
def psFatal : PState :=
  { lexerSet := true, lexInput := [⟨7, 0⟩], tokens := [⟨9, 0⟩],
    dedup := [(2, 0)], delivered := [⟨3, 2, 0⟩], nInfo := 0, nWarn := 0,
    nError := 1, nFatal := 1, errorLimit := 1000 }

/-- Result of the guard-passing `parse` call used by the C5 witness. -/
def c5out : Option Nat × PState :=
  match parseP gTwoTerm 0 50 psC7 with
  | .ok p => p
  | .error _ => (none, psC7)

/-- A small engine state for the C1 witness: `matched_` holds node 0
ending at offset 3, the candidate node 1 ends at offset 0, and the
popped head has one GSS edge. -/
def sppfC1 : SState :=
  { nodes :=
      [ { label := .ntL 0, firstTok := some 0, lastTok := 1, children := [] },
        { label := .ntL 0, firstTok := some 0, lastTok := 0,
          children := [] } ],
    consed := [0, 1] }

def psC1 : PState :=
  { lexerSet := true, lexInput := [], tokens := [⟨5, 0⟩, ⟨6, 3⟩],
    dedup := [], delivered := [], nInfo := 0, nWarn := 0,
    nError := 0, nFatal := 0, errorLimit := 1000 }

def stC1 : GLLState :=
  { ps := psC1,
    gssNodes := [⟨none, some 0⟩, ⟨none, none⟩],
    gssEdges := [(⟨none, some 0⟩, [⟨⟨none, none⟩, none⟩])],
    popped := [], visited := [], worklist := [],
    sppf := sppfC1,
    matched := some 0, recovery := none, possErrors := [] }

/-! ## Theorems -/

/-- C8: for every spelling of at most the maximum storable length,
`setSpelling` succeeds and `spelling()` returns the very same byte
sequence, in both the inline-buffer and the by-reference representation.
The added conjuncts record which storage each branch selects. -/
theorem setSpelling_roundtrip (t : TokenM) (s : List Nat)
    (h : s.length ≤ 65535) :
    ∃ t', t.setSpelling s = Except.ok t' ∧ t'.spellingT = s ∧
      ((hasMaxSizeOne s = true ∧ s ≠ [] → t'.tag = false) ∧
       (hasMaxSizeOne s = false → t'.tag = true)) := by
  unfold TokenM.setSpelling
  by_cases hsmall : hasMaxSizeOne s
  · by_cases hne : s.isEmpty
    · simp only [hsmall, if_true, hne]
      refine ⟨_, rfl, ?_, ?_, ?_⟩
      · simp [TokenM.spellingT, List.isEmpty_iff.mp hne]
      · intro hcontra
        exact absurd (List.isEmpty_iff.mp hne) hcontra.2
      · intro hcontra
        exact absurd hcontra (by decide)
    · simp only [hsmall, if_true, hne, if_false]
      refine ⟨_, rfl, ?_, ?_, ?_⟩
      · simp [TokenM.spellingT]
      · intro _; rfl
      · intro hcontra
        exact absurd hcontra (by decide)
  · have hb : ¬ s.length > 65535 := by omega
    have hs2 : hasMaxSizeOne s = false := by
      revert hsmall; cases hasMaxSizeOne s <;> simp
    simp only [hs2, if_false, Bool.false_eq_true, hb]
    refine ⟨_, rfl, ?_, ?_, ?_⟩
    · simp [TokenM.spellingT]
    · intro hcontra
      exact absurd hcontra.1 (by decide)
    · intro _; rfl

/-- Witness for `setSpelling_roundtrip`: a concrete two-character (hence
by-reference) spelling stored and read back. -/
theorem setSpelling_roundtrip_witness :
    ∃ t', TokenM.resetT.setSpelling [97, 98] = Except.ok t' ∧
      t'.spellingT = [97, 98] ∧
      ((hasMaxSizeOne [97, 98] = true ∧ [97, 98] ≠ ([] : List Nat) →
          t'.tag = false) ∧
       (hasMaxSizeOne [97, 98] = false → t'.tag = true)) :=
  setSpelling_roundtrip TokenM.resetT [97, 98] (by decide)

/-- C10: token equality compares exactly the kind and the spelling bytes;
tokens that differ in offset, line, column and flags can still compare
equal. -/
theorem token_eq_iff_kind_and_spelling :
    (∀ a b : TokenM,
       a.eqT b = true ↔ (a.kindF = b.kindF ∧ a.spellingT = b.spellingT)) ∧
    (∃ a b : TokenM, a.offsetF ≠ b.offsetF ∧ a.lineF ≠ b.lineF ∧
       a.columnF ≠ b.columnF ∧ a.flagsF ≠ b.flagsF ∧ a.eqT b = true) := by
  constructor
  · intro a b
    simp [TokenM.eqT]
  · exact ⟨TokenM.resetT, tokenAtOtherPos, by decide, by decide, by decide,
      by decide, by decide⟩

/-- Unfolding of `analyzeNT` into the rule phase followed by the
left-recursion broadcast and the `got_initial_terminals_` flag. -/
theorem analyzeNT_unfold (g : GrammarM) (n : Nat) :
    analyzeNT g n = (analyzeFinalState g n, analyzeStatus g n) := by
  show initNT g (g.length + 1) n (initialAState g) = _
  rw [initNT]
  simp only [List.mem_nil_iff, if_false]
  rfl

/-- Lookup after appending to the same key. -/
theorem lookupKey_appendKey_self (k i : Nat) (m : TermMap) :
    lookupKey k (appendKey k i m) =
      some ((lookupKey k m).getD [] ++ [i]) := by
  induction m with
  | nil => simp [appendKey, lookupKey]
  | cons kv rest ih =>
    by_cases h : kv.1 = k
    · simp [appendKey, lookupKey, h]
    · simp [appendKey, lookupKey, h, ih]

/-- Lookup after appending to a different key. -/
theorem lookupKey_appendKey_ne (k' k i : Nat) (m : TermMap) (h : k' ≠ k) :
    lookupKey k' (appendKey k i m) = lookupKey k' m := by
  have hk : k ≠ k' := Ne.symm h
  induction m with
  | nil => simp [appendKey, lookupKey, hk]
  | cons kv rest ih =>
    by_cases hkv : kv.1 = k
    · simp [appendKey, lookupKey, hkv, hk]
    · by_cases hkv' : kv.1 = k'
      · simp [appendKey, lookupKey, hkv, hkv', h]
      · simp [appendKey, lookupKey, hkv, hkv', ih]

/-- `keyIsEmpty` in terms of `lookupKey`. -/
theorem keyIsEmpty_iff (k : Nat) (m : TermMap) :
    keyIsEmpty k m = true ↔
      (lookupKey k m = none ∨ lookupKey k m = some []) := by
  unfold keyIsEmpty
  cases h : lookupKey k m with
  | none => simp
  | some l => cases l <;> simp

theorem mapGrows_refl (P : Nat → Prop) (m : TermMap) : mapGrows P m m := by
  constructor
  · intro k l h
    exact ⟨[], by simpa using h, by simp⟩
  · intro k l' h h'
    rw [h'] at h
    cases h

theorem mapGrows_trans {P : Nat → Prop} {m m' m'' : TermMap}
    (h1 : mapGrows P m m') (h2 : mapGrows P m' m'') :
    mapGrows P m m'' := by
  constructor
  · intro k l hl
    obtain ⟨d, hd, hdP⟩ := h1.1 k l hl
    obtain ⟨d', hd', hdP'⟩ := h2.1 k (l ++ d) hd
    refine ⟨d ++ d', by simpa using hd', ?_⟩
    intro x hx
    rcases List.mem_append.mp hx with hx | hx
    · exact hdP x hx
    · exact hdP' x hx
  · intro k l'' hl'' hnone
    cases hmid : lookupKey k m' with
    | none => exact h2.2 k l'' hl'' hmid
    | some lmid =>
      obtain ⟨hne, hP⟩ := h1.2 k lmid hmid hnone
      obtain ⟨d', hd', hdP'⟩ := h2.1 k lmid hmid
      rw [hl''] at hd'
      obtain rfl : l'' = lmid ++ d' := by injection hd'
      constructor
      · intro hemp
        exact hne (by simpa using List.append_eq_nil.mp hemp |>.1)
      · intro x hx
        rcases List.mem_append.mp hx with hx | hx
        · exact hP x hx
        · exact hdP' x hx

theorem mapGrows_mono {P Q : Nat → Prop} (hPQ : ∀ x, P x → Q x)
    {m m' : TermMap} (h : mapGrows P m m') : mapGrows Q m m' := by
  constructor
  · intro k l hl
    obtain ⟨d, hd, hdP⟩ := h.1 k l hl
    exact ⟨d, hd, fun x hx => hPQ x (hdP x hx)⟩
  · intro k l' hl' hn
    obtain ⟨hne, hP⟩ := h.2 k l' hl' hn
    exact ⟨hne, fun x hx => hPQ x (hP x hx)⟩

theorem mapGrows_appendKey (P : Nat → Prop) (k i : Nat) (m : TermMap)
    (hP : P i) : mapGrows P m (appendKey k i m) := by
  constructor
  · intro k' l hl
    by_cases hk : k' = k
    · subst hk
      refine ⟨[i], ?_, by simpa using hP⟩
      rw [lookupKey_appendKey_self, hl]
      rfl
    · exact ⟨[], by simpa using (lookupKey_appendKey_ne k' k i m hk).trans hl,
        by simp⟩
  · intro k' l' hl' hnone
    by_cases hk : k' = k
    · subst hk
      rw [lookupKey_appendKey_self, hnone] at hl'
      have h2 : l' = [i] := by
        injection hl' with h1
        simpa using h1.symm
      subst h2
      exact ⟨by simp, by simpa using hP⟩
    · rw [lookupKey_appendKey_ne k' k i m hk, hnone] at hl'
      cases hl'

/-! ### Basic `AState` lemmas -/

theorem AState.get_modify_self (s : AState) (n : Nat) (f : NTState → NTState)
    (h : n < s.entries.length) : (s.modify n f).get n = f (s.get n) := by
  simp [AState.get, AState.modify, List.getD, List.getElem?_set_self', h]

theorem AState.get_modify_ne (s : AState) (n m : Nat) (f : NTState → NTState)
    (h : m ≠ n) : (s.modify n f).get m = s.get m := by
  simp [AState.get, AState.modify, List.getD,
    List.getElem?_set_ne (fun hh => h hh.symm)]

theorem AState.get_modify_oob (s : AState) (n : Nat) (f : NTState → NTState)
    (h : ¬ n < s.entries.length) : (s.modify n f).get n = s.get n := by
  unfold AState.get AState.modify
  rw [List.set_eq_of_length_le (by omega : s.entries.length ≤ n)]

theorem AState.modify_entries_length (s : AState) (n : Nat)
    (f : NTState → NTState) :
    (s.modify n f).entries.length = s.entries.length := by
  simp [AState.modify]

theorem AState.modify_visited (s : AState) (n : Nat) (f : NTState → NTState) :
    (s.modify n f).visited = s.visited := rfl

theorem bigKey_mono {P : Nat → Prop} {m m' : TermMap}
    (h : mapGrows P m m') (hb : bigKey m) : bigKey m' := by
  obtain ⟨k, l, hl, hlen⟩ := hb
  obtain ⟨d, hd, -⟩ := h.1 k l hl
  exact ⟨k, l ++ d, hd, by simp; omega⟩

theorem smallMap_appendKey {m : TermMap} {t ri : Nat}
    (hs : smallMap m) (he : keyIsEmpty t m = true) :
    smallMap (appendKey t ri m) := by
  intro k l hl
  by_cases hk : k = t
  · subst hk
    rw [lookupKey_appendKey_self] at hl
    rcases (keyIsEmpty_iff k m).mp he with h0 | h0 <;>
      · rw [h0] at hl
        injection hl with h1
        subst h1
        simp
  · rw [lookupKey_appendKey_ne k t ri m hk] at hl
    exact hs k l hl

theorem BaseInv.reflB (self : Nat) (s : AState) : BaseInv self s s :=
  ⟨fun _ h => h, rfl, fun _ _ _ => rfl⟩

theorem BaseInv.transB {self : Nat} {s s' s'' : AState}
    (h1 : BaseInv self s s') (h2 : BaseInv self s' s'') :
    BaseInv self s s'' := by
  refine ⟨fun n hn => h2.vis (h1.vis hn), h2.len.trans h1.len, ?_⟩
  intro n hn hne
  rw [h2.frame n (h1.vis hn) hne, h1.frame n hn hne]

theorem BaseInv.modifySelf (self : Nat) (s : AState) (f : NTState → NTState) :
    BaseInv self s (s.modify self f) := by
  refine ⟨fun _ h => h, s.modify_entries_length self f, ?_⟩
  intro n _ hne
  exact s.get_modify_ne self n f hne

theorem SelfProps.reflS (P : Nat → Prop) (self : Nat) (s : AState) :
    SelfProps P self s s :=
  ⟨mapGrows_refl P _, fun h => h, fun h => h⟩

theorem SelfProps.ofEq {P : Nat → Prop} {self : Nat} {s s' : AState}
    (h : s'.get self = s.get self) : SelfProps P self s s' := by
  refine ⟨?_, ?_, ?_⟩ <;> rw [h]
  · exact mapGrows_refl P _
  · exact fun hh => hh
  · exact fun hh => hh

theorem SelfProps.transS {P : Nat → Prop} {self : Nat} {s s' s'' : AState}
    (h1 : SelfProps P self s s') (h2 : SelfProps P self s' s'') :
    SelfProps P self s s'' := by
  refine ⟨mapGrows_trans h1.grows h2.grows, ?_, ?_⟩
  · intro h
    exact h1.ll1Mono (h2.ll1Mono h)
  · intro h
    exact h2.small (h1.small h)

theorem SelfProps.mono {P Q : Nat → Prop} (hPQ : ∀ x, P x → Q x)
    {self : Nat} {s s' : AState} (h : SelfProps P self s s') :
    SelfProps Q self s s' :=
  ⟨mapGrows_mono hPQ h.grows, h.ll1Mono, h.small⟩

/-- The update step `updateTerminalsAndLL1(t, rule)` on `self`. -/
theorem selfProps_update (self : Nat) (s : AState) (t ri : Nat) :
    SelfProps (fun x => x = ri) self s
      (s.modify self (fun st => updateTerminalsAndLL1 st t ri)) := by
  by_cases hlen : self < s.entries.length
  case neg =>
    exact SelfProps.ofEq (s.get_modify_oob self _ hlen)
  have hget := s.get_modify_self self
    (fun st => updateTerminalsAndLL1 st t ri) hlen
  refine ⟨?_, ?_, ?_⟩
  · rw [hget]
    exact mapGrows_appendKey _ t ri _ rfl
  · rw [hget]
    intro h
    have := (Bool.and_eq_true _ _).mp h
    exact this.1
  · rw [hget]
    intro hpre h
    have h2 := (Bool.and_eq_true _ _).mp h
    exact smallMap_appendKey (hpre h2.1) h2.2

/-- The `is_ll1_ = false` clearing step on `self`. -/
theorem selfProps_clearLL1 (P : Nat → Prop) (self : Nat) (s : AState) :
    SelfProps P self s
      (s.modify self (fun st => { st with isLL1 := false })) := by
  by_cases hlen : self < s.entries.length
  case neg =>
    exact SelfProps.ofEq (s.get_modify_oob self _ hlen)
  have hget := s.get_modify_self self
    (fun st => { st with isLL1 := false }) hlen
  refine ⟨?_, ?_, ?_⟩ <;> rw [hget]
  · exact mapGrows_refl P _
  · intro h
    cases h
  · intro _ h
    cases h

/-- A nested recursive analysis call leaves `self` untouched. -/
theorem selfProps_rec {rec : Nat → AState → AState × AStatus}
    (hrec : RecOK rec) (P : Nat → Prop) {self : Nat} (m : Nat) (s : AState)
    (hself : self ∈ s.visited) :
    SelfProps P self s (rec m s).1 :=
  SelfProps.ofEq (hrec.frame m s self hself)

theorem baseInv_rec {rec : Nat → AState → AState × AStatus}
    (hrec : RecOK rec) (self m : Nat) (s : AState) :
    BaseInv self s (rec m s).1 :=
  ⟨hrec.vis m s, hrec.len m s, fun n hn _ => hrec.frame m s n hn⟩

/-- LL(1)-clearing analysis of a single `updateTerminalsAndLL1` step:
either the flag was already clear, or the touched key now holds at least
two rule indices. -/
theorem updateTerminals_ll1_cause {self : Nat} (s : AState) (t ri : Nat)
    (h : ((s.modify self
            (fun st => updateTerminalsAndLL1 st t ri)).get self).isLL1
          = false) :
    (s.get self).isLL1 = false ∨
      bigKey (((s.modify self
        (fun st => updateTerminalsAndLL1 st t ri)).get self).terminals) := by
  by_cases hlen : self < s.entries.length
  case neg =>
    rw [s.get_modify_oob self _ hlen] at h
    exact Or.inl h
  rw [s.get_modify_self self _ hlen] at h ⊢
  by_cases h0 : (s.get self).isLL1 = false
  · exact Or.inl h0
  · right
    have h1 : (s.get self).isLL1 = true := by
      revert h0; cases (s.get self).isLL1 <;> simp
    have h2 : keyIsEmpty t (s.get self).terminals = false := by
      by_contra hc
      have h3 : keyIsEmpty t (s.get self).terminals = true := by
        revert hc; cases keyIsEmpty t (s.get self).terminals <;> simp
      rw [updateTerminalsAndLL1] at h
      simp only [h1, h3, Bool.true_and] at h
      cases h
    obtain ⟨l, hl, hlne⟩ : ∃ l, lookupKey t (s.get self).terminals = some l ∧
        l ≠ [] := by
      cases hlk : lookupKey t (s.get self).terminals with
      | none =>
        exfalso
        have := (keyIsEmpty_iff t (s.get self).terminals).mpr (Or.inl hlk)
        rw [this] at h2
        cases h2
      | some l =>
        refine ⟨l, rfl, ?_⟩
        intro hnil
        subst hnil
        have := (keyIsEmpty_iff t (s.get self).terminals).mpr (Or.inr hlk)
        rw [this] at h2
        cases h2
    refine ⟨t, l ++ [ri], ?_, ?_⟩
    · show lookupKey t (appendKey t ri (s.get self).terminals) = _
      rw [lookupKey_appendKey_self, hl]
      rfl
    · have : 1 ≤ l.length := List.length_pos.mpr hlne
      simp
      omega

/-- The callee-first-set fold only appends `ri` to `self`'s map; if it
clears `is_ll1_`, either the flag was already clear or some key now
holds at least two indices. -/
theorem foldFirstSets_inv (self ri : Nat) (kvs : TermMap) (s : AState) :
    BaseInv self s (foldFirstSets self ri kvs s) ∧
      SelfProps (fun x => x = ri) self s (foldFirstSets self ri kvs s) ∧
      (foldFirstSets self ri kvs s).visited = s.visited ∧
      (((foldFirstSets self ri kvs s).get self).isLL1 = false →
        (s.get self).isLL1 = false ∨
        bigKey (((foldFirstSets self ri kvs s).get self).terminals)) := by
  induction kvs generalizing s with
  | nil =>
    exact ⟨BaseInv.reflB self s, SelfProps.reflS _ self s, rfl,
      fun h => Or.inl h⟩
  | cons kv rest ih =>
    have hstep : foldFirstSets self ri (kv :: rest) s =
        foldFirstSets self ri rest
          (s.modify self (fun st => updateTerminalsAndLL1 st kv.1 ri)) := rfl
    rw [hstep]
    set s1 := s.modify self (fun st => updateTerminalsAndLL1 st kv.1 ri) with hs1
    obtain ⟨hb, hsp, hv, hcause⟩ := ih s1
    refine ⟨(BaseInv.modifySelf self s _).transB hb,
      (selfProps_update self s kv.1 ri).transS hsp, ?_, ?_⟩
    · rw [hv]
      rfl
    · intro h
      rcases hcause h with h' | h'
      · rcases updateTerminals_ll1_cause s kv.1 ri (by rw [← hs1]; exact h')
          with h'' | h''
        · exact Or.inl h''
        · exact Or.inr (bigKey_mono hsp.grows (by rw [← hs1] at h''; exact h''))
      · exact Or.inr h'

/-- One-step unfolding of the component walk on a cons cell. -/
theorem walkComps_cons (g : GrammarM) (rec : Nat → AState → AState × AStatus)
    (self ri : Nat) (c : CompM) (rest : List CompM) (s : AState)
    (rm lp : Bool) :
    walkComps g rec self ri (c :: rest) s rm lp =
      if c.isTerminal then
        if c.terminal = 0 then
          if rm && c.isOptional then
            walkComps g rec self ri rest s (rm && c.isOptional)
              (lp || c.hasPredicate)
          else
            (s, .outDone (rm && c.isOptional) (lp || c.hasPredicate) false)
        else
          if rm && c.isOptional then
            walkComps g rec self ri rest
              (s.modify self (fun st => updateTerminalsAndLL1 st c.terminal ri))
              (rm && c.isOptional) lp
          else
            (s.modify self (fun st => updateTerminalsAndLL1 st c.terminal ri),
              .outDone (rm && c.isOptional) lp false)
      else
        if c.nt = self then
          (s.modify self (fun st => { st with isLL1 := false }), .outIsLR)
        else
          if (((if (s.get c.nt).got then s
                else (rec c.nt s).1).get c.nt).terminals).isEmpty then
            ((if (s.get c.nt).got then s else (rec c.nt s).1),
              .outDone (rm && (c.isOptional || (s.get c.nt).matchesEmpty))
                lp true)
          else
            if rm && (c.isOptional || (s.get c.nt).matchesEmpty) then
              walkComps g rec self ri rest
                (foldFirstSets self ri
                  (((if (s.get c.nt).got then s
                     else (rec c.nt s).1).get c.nt).terminals)
                  (if (s.get c.nt).got then s else (rec c.nt s).1))
                (rm && (c.isOptional || (s.get c.nt).matchesEmpty)) lp
            else
              (foldFirstSets self ri
                (((if (s.get c.nt).got then s
                   else (rec c.nt s).1).get c.nt).terminals)
                (if (s.get c.nt).got then s else (rec c.nt s).1),
                .outDone (rm && (c.isOptional || (s.get c.nt).matchesEmpty))
                  lp false) := rfl

/-- Master invariant of the component walk: frame and growth facts, the
origin of the `IS_LR` outcome, and the cause analysis of a cleared
`is_ll1_` flag. -/
theorem walkComps_inv (g : GrammarM) {rec : Nat → AState → AState × AStatus}
    (hrec : RecOK rec) (self ri : Nat) :
    ∀ (comps : List CompM) (s : AState) (rm lp : Bool),
      self ∈ s.visited →
      BaseInv self s (walkComps g rec self ri comps s rm lp).1 ∧
      SelfProps (fun x => x = ri) self s
        (walkComps g rec self ri comps s rm lp).1 ∧
      ((walkComps g rec self ri comps s rm lp).2 = .outIsLR →
        ∃ c ∈ comps, c.refersTo self = true) ∧
      (((walkComps g rec self ri comps s rm lp).1.get self).isLL1 = false →
        (s.get self).isLL1 = false ∨
        bigKey (((walkComps g rec self ri comps s rm lp).1.get self).terminals) ∨
        (walkComps g rec self ri comps s rm lp).2 = .outIsLR) := by
  intro comps
  induction comps with
  | nil =>
    intro s rm lp _
    refine ⟨BaseInv.reflB self s, SelfProps.reflS _ self s, ?_, ?_⟩
    · intro h
      simp [walkComps] at h
    · intro h
      exact Or.inl h
  | cons c rest ih =>
    intro s rm lp hself
    rw [walkComps_cons]
    by_cases hct : c.isTerminal = true
    · rw [if_pos hct]
      by_cases ht0 : c.terminal = 0
      · rw [if_pos ht0]
        by_cases hrm : (rm && c.isOptional) = true
        · rw [if_pos hrm]
          obtain ⟨b, sp, lr, cause⟩ := ih s (rm && c.isOptional)
            (lp || c.hasPredicate) hself
          refine ⟨b, sp, ?_, ?_⟩
          · intro h
            obtain ⟨c', hc', hcr⟩ := lr h
            exact ⟨c', List.mem_cons_of_mem c hc', hcr⟩
          · intro h
            rcases cause h with h | h | h
            · exact Or.inl h
            · exact Or.inr (Or.inl h)
            · exact Or.inr (Or.inr h)
        · rw [if_neg hrm]
          refine ⟨BaseInv.reflB self s, SelfProps.reflS _ self s, ?_, ?_⟩
          · intro h
            simp at h
          · intro h
            exact Or.inl h
      · rw [if_neg ht0]
        have b1 := BaseInv.modifySelf self s
          (fun st => updateTerminalsAndLL1 st c.terminal ri)
        have sp1 := selfProps_update self s c.terminal ri
        set s1 := s.modify self
          (fun st => updateTerminalsAndLL1 st c.terminal ri) with hs1
        have hself1 : self ∈ s1.visited := b1.vis hself
        by_cases hrm : (rm && c.isOptional) = true
        · rw [if_pos hrm]
          obtain ⟨b, sp, lr, cause⟩ := ih s1 (rm && c.isOptional) lp
            hself1
          refine ⟨b1.transB b, sp1.transS sp, ?_, ?_⟩
          · intro h
            obtain ⟨c', hc', hcr⟩ := lr h
            exact ⟨c', List.mem_cons_of_mem c hc', hcr⟩
          · intro h
            rcases cause h with h | h | h
            · rcases updateTerminals_ll1_cause s c.terminal ri h with
                h' | h'
              · exact Or.inl h'
              · exact Or.inr (Or.inl (bigKey_mono sp.grows h'))
            · exact Or.inr (Or.inl h)
            · exact Or.inr (Or.inr h)
        · rw [if_neg hrm]
          refine ⟨b1, sp1, ?_, ?_⟩
          · intro h
            simp at h
          intro h
          rcases updateTerminals_ll1_cause s c.terminal ri h with h' | h'
          · exact Or.inl h'
          · exact Or.inr (Or.inl h')
    · rw [if_neg hct]
      by_cases hcs : c.nt = self
      · rw [if_pos hcs]
        refine ⟨BaseInv.modifySelf self s
            (fun st => { st with isLL1 := false }),
          selfProps_clearLL1 (fun x => x = ri) self s, ?_, ?_⟩
        · intro _
          refine ⟨c, List.mem_cons_self c rest, ?_⟩
          simp [CompM.refersTo, hct, hcs]
        · intro _
          exact Or.inr (Or.inr rfl)
      · rw [if_neg hcs]
        have b1 : BaseInv self s (if (s.get c.nt).got then s
            else (rec c.nt s).1) := by
          split
          · exact BaseInv.reflB self s
          · exact baseInv_rec hrec self c.nt s
        have hgs : ((if (s.get c.nt).got then s
            else (rec c.nt s).1).get self) = s.get self := by
          split
          · rfl
          · exact hrec.frame c.nt s self hself
        set s1 := if (s.get c.nt).got then s else (rec c.nt s).1 with hs1def
        have sp1 : SelfProps (fun x => x = ri) self s s1 := SelfProps.ofEq hgs
        have hself1 : self ∈ s1.visited := b1.vis hself
        by_cases hempty : (((s1.get c.nt)).terminals).isEmpty = true
        · rw [if_pos hempty]
          refine ⟨b1, sp1, ?_, ?_⟩
          · intro h
            simp at h
          intro h
          rw [hgs] at h
          exact Or.inl h
        · rw [if_neg hempty]
          obtain ⟨b2, sp2, _, cause2⟩ :=
            foldFirstSets_inv self ri ((s1.get c.nt).terminals) s1
          set s2 := foldFirstSets self ri ((s1.get c.nt).terminals) s1 with hs2
          have hself2 : self ∈ s2.visited := b2.vis hself1
          by_cases hrm : (rm && (c.isOptional || (s.get c.nt).matchesEmpty))
              = true
          · rw [if_pos hrm]
            obtain ⟨b, sp, lr, cause⟩ := ih s2
              (rm && (c.isOptional || (s.get c.nt).matchesEmpty)) lp
              hself2
            refine ⟨(b1.transB b2).transB b, (sp1.transS sp2).transS sp, ?_, ?_⟩
            · intro h
              obtain ⟨c', hc', hcr⟩ := lr h
              exact ⟨c', List.mem_cons_of_mem c hc', hcr⟩
            · intro h
              rcases cause h with h | h | h
              · rcases cause2 h with h' | h'
                · rw [hgs] at h'
                  exact Or.inl h'
                · exact Or.inr (Or.inl (bigKey_mono sp.grows h'))
              · exact Or.inr (Or.inl h)
              · exact Or.inr (Or.inr h)
          · rw [if_neg hrm]
            refine ⟨b1.transB b2, sp1.transS sp2, ?_, ?_⟩
            · intro h
              simp at h
            intro h
            rcases cause2 h with h' | h'
            · rw [hgs] at h'
              exact Or.inl h'
            · exact Or.inr (Or.inl h')

/-- Setting `matches_empty_` leaves `terminals` and `is_ll1_` alone. -/
theorem get_modify_setME (self : Nat) (s : AState) :
    (((s.modify self
        (fun st => { st with matchesEmpty := true })).get self).terminals
      = (s.get self).terminals) ∧
    (((s.modify self
        (fun st => { st with matchesEmpty := true })).get self).isLL1
      = (s.get self).isLL1) := by
  by_cases hlen : self < s.entries.length
  · rw [s.get_modify_self self _ hlen]
    exact ⟨rfl, rfl⟩
  · rw [s.get_modify_oob self _ hlen]
    exact ⟨rfl, rfl⟩

theorem selfProps_setME (P : Nat → Prop) (self : Nat) (s : AState) :
    SelfProps P self s
      (s.modify self (fun st => { st with matchesEmpty := true })) := by
  obtain ⟨ht, hl⟩ := get_modify_setME self s
  exact ⟨ht ▸ mapGrows_refl P _, fun h => hl ▸ h, fun hp h => ht ▸ hp (hl ▸ h)⟩

/-- Frame, growth, status and LL(1)-cause facts for one rule of the
analysis (`initTerminalsAndLL1(visited, rule)`). -/
theorem initRuleA_inv (g : GrammarM) {rec : Nat → AState → AState × AStatus}
    (hrec : RecOK rec) (self ri : Nat) (comps : List CompM) (s : AState)
    (hself : self ∈ s.visited) :
    BaseInv self s (initRuleA g rec self ri comps s).1 ∧
    ((initRuleA g rec self ri comps s).2 ≠ .stIndet →
       SelfProps (fun x => x = ri) self s (initRuleA g rec self ri comps s).1) ∧
    ((initRuleA g rec self ri comps s).2 = .stIndet →
       self < s.entries.length →
       ((initRuleA g rec self ri comps s).1.get self).terminals = [] ∧
       ((initRuleA g rec self ri comps s).1.get self).isLL1 = false) ∧
    ((initRuleA g rec self ri comps s).2 = .stIsLR →
       ∃ c ∈ comps, c.refersTo self = true) ∧
    ((initRuleA g rec self ri comps s).2 = .stOK →
      (((initRuleA g rec self ri comps s).1.get self).isLL1 = false →
        (s.get self).isLL1 = false ∨
        bigKey (((initRuleA g rec self ri comps s).1.get self).terminals))) := by
  obtain ⟨bW, spW, lrW, causeW⟩ :=
    walkComps_inv g hrec self ri comps s true false hself
  unfold initRuleA
  rcases hww : walkComps g rec self ri comps s true false with ⟨w1, wout⟩
  rw [hww] at bW spW lrW causeW
  cases wout with
  | outIsLR =>
    refine ⟨bW, fun _ => spW, ?_, fun _ => lrW rfl, ?_⟩
    · intro h
      simp at h
    · intro h
      simp at h
  | outDone rm lonePred subIndet =>
    dsimp only
    by_cases hlps : (lonePred || subIndet) = true
    · rw [if_pos hlps]
      refine ⟨bW.transB (BaseInv.modifySelf self w1
        (fun st => { st with isLL1 := false, terminals := [] })), ?_, ?_, ?_, ?_⟩
      · intro h
        exact absurd rfl h
      · intro _ hlen
        have hlen1 : self < w1.entries.length := by rw [bW.len]; exact hlen
        rw [w1.get_modify_self self _ hlen1]
        exact ⟨rfl, rfl⟩
      · intro h
        simp at h
      · intro h
        simp at h
    · rw [if_neg hlps]
      by_cases hrm : rm = true
      · rw [if_pos hrm]
        refine ⟨(bW.transB (BaseInv.modifySelf self w1
            (fun st => updateTerminalsAndLL1 st 0 ri))).transB
          (BaseInv.modifySelf self
            (w1.modify self (fun st => updateTerminalsAndLL1 st 0 ri))
            (fun st => { st with matchesEmpty := true })), ?_, ?_, ?_, ?_⟩
        · intro _
          exact (spW.transS (selfProps_update self w1 0 ri)).transS
            (selfProps_setME _ self _)
        · intro h
          simp at h
        · intro h
          simp at h
        · intro _ h
          obtain ⟨ht, hl⟩ := get_modify_setME self
            (w1.modify self (fun st => updateTerminalsAndLL1 st 0 ri))
          rw [hl] at h
          rcases updateTerminals_ll1_cause w1 0 ri h with h' | h'
          · rcases causeW h' with h'' | h'' | h''
            · exact Or.inl h''
            · exact Or.inr (bigKey_mono
                ((selfProps_update self w1 0 ri).transS
                  (selfProps_setME (fun x => x = ri) self
                    (w1.modify self
                      (fun st => updateTerminalsAndLL1 st 0 ri)))).grows h'')
            · cases h''
          · right
            rw [ht]
            exact h'
      · rw [if_neg hrm]
        refine ⟨bW, fun _ => spW, ?_, ?_, ?_⟩
        · intro h
          simp at h
        · intro h
          simp at h
        · intro _ h
          rcases causeW h with h' | h' | h'
          · exact Or.inl h'
          · exact Or.inr h'
          · cases h'

/-- A strictly left-recursive rule (first component referring back to the
analysed nonterminal) is flagged `IS_LR` immediately, before recording
any terminal. -/
theorem initRuleA_leftrec (g : GrammarM) (rec : Nat → AState → AState × AStatus)
    (self ri : Nat) (c : CompM) (rest : List CompM) (s : AState)
    (hc : c.refersTo self = true) :
    initRuleA g rec self ri (c :: rest) s =
      (s.modify self (fun st => { st with isLL1 := false }), .stIsLR) := by
  have hct : c.isTerminal = false := by
    revert hc
    unfold CompM.refersTo
    cases c.isTerminal <;> simp
  have hnt : c.nt = self := by
    revert hc
    unfold CompM.refersTo
    cases hh : c.isTerminal <;> simp
  unfold initRuleA
  rw [walkComps_cons]
  simp [hct, hnt]

/-- Status `OK` means the rule was not flagged left-recursive at its
first component. -/
theorem initRuleA_stOK_not_leftrec (g : GrammarM)
    (rec : Nat → AState → AState × AStatus) (self ri : Nat) (r : RuleM)
    (s : AState) (h : (initRuleA g rec self ri r.comps s).2 = .stOK) :
    r.isLeftRecursiveTo self = false := by
  unfold RuleM.isLeftRecursiveTo
  cases hcs : r.comps with
  | nil => rfl
  | cons c rest =>
    by_cases hc : c.refersTo self = true
    · rw [hcs, initRuleA_leftrec g rec self ri c rest s hc] at h
      cases h
    · simpa using hc

theorem drop_cons_facts {α : Type} {l : List α} {i : Nat} {a : α}
    {rest : List α} (h : l.drop i = a :: rest) :
    l.get? i = some a ∧ l.drop (i + 1) = rest := by
  constructor
  · have h1 : (l.drop i).get? 0 = some a := by rw [h]; rfl
    rw [List.get?_drop] at h1
    simpa using h1
  · have h2 : (l.drop i).drop 1 = rest := by rw [h]; rfl
    rw [List.drop_drop] at h2
    simpa [Nat.add_comm] using h2

/-- One-step unfolding of the rule loop on a cons cell. -/
theorem rulesLoopA_cons (g : GrammarM) (rec : Nat → AState → AState × AStatus)
    (self idx : Nat) (r : RuleM) (rest : List RuleM) (s : AState)
    (lr : List Nat) (st : AStatus) :
    rulesLoopA g rec self idx (r :: rest) s lr st =
      if r.enabled then
        match initRuleA g rec self idx r.comps s with
        | (s', .stOK) => rulesLoopA g rec self (idx + 1) rest s' lr .stOK
        | (s', .stIsLR) =>
            rulesLoopA g rec self (idx + 1) rest s' (lr ++ [idx]) .stIsLR
        | (s', .stIndet) => (s', [], .stIndet)
      else
        rulesLoopA g rec self (idx + 1) rest s lr st := rfl

/-- Master invariant of the rule loop: frame and growth facts (growth
only by enabled, not strictly left-recursive rule indices), the shape of
the final state on an indeterminate abort, the characterisation of the
collected `lr_rules`, and the cause analysis of a cleared `is_ll1_`. -/
theorem rulesLoopA_inv (g : GrammarM) {rec : Nat → AState → AState × AStatus}
    (hrec : RecOK rec) (self : Nat) :
    ∀ (rules : List RuleM) (idx : Nat) (s : AState) (lr : List Nat)
      (st : AStatus),
      self ∈ s.visited →
      (ntRules g self).drop idx = rules →
      st ≠ .stIndet →
      BaseInv self s (rulesLoopA g rec self idx rules s lr st).1 ∧
      ((rulesLoopA g rec self idx rules s lr st).2.2 ≠ .stIndet →
        SelfProps (okRuleIdx g self) self s
          (rulesLoopA g rec self idx rules s lr st).1) ∧
      ((rulesLoopA g rec self idx rules s lr st).2.2 = .stIndet →
        self < s.entries.length →
        (((rulesLoopA g rec self idx rules s lr st).1.get self).terminals = []
         ∧ ((rulesLoopA g rec self idx rules s lr st).1.get self).isLL1 = false
         ∧ (rulesLoopA g rec self idx rules s lr st).2.1 = [])) ∧
      ((rulesLoopA g rec self idx rules s lr st).2.2 ≠ .stIndet →
        ∃ flagged, (rulesLoopA g rec self idx rules s lr st).2.1
            = lr ++ flagged ∧
          (∀ x ∈ flagged, idx ≤ x ∧ ∃ rr, (ntRules g self).get? x = some rr ∧
             rr.enabled = true ∧ rr.isRecursiveTo self = true) ∧
          List.Chain' (· < ·) flagged) ∧
      (((rulesLoopA g rec self idx rules s lr st).1.get self).isLL1 = false →
        (s.get self).isLL1 = false ∨
        bigKey (((rulesLoopA g rec self idx rules s lr st).1.get self).terminals)
        ∨ (rulesLoopA g rec self idx rules s lr st).2.1 ≠ lr
        ∨ (rulesLoopA g rec self idx rules s lr st).2.2 = .stIndet) := by
  intro rules
  induction rules with
  | nil =>
    intro idx s lr st hself _ hst
    refine ⟨BaseInv.reflB self s, fun _ => SelfProps.reflS _ self s, ?_, ?_, ?_⟩
    · intro h
      exact absurd h hst
    · intro _
      exact ⟨[], (List.append_nil lr).symm, by simp, List.chain'_nil⟩
    · intro h
      exact Or.inl h
  | cons r rest ih =>
    intro idx s lr st hself hdrop hst
    obtain ⟨hget, hdrop2⟩ := drop_cons_facts hdrop
    by_cases hen : r.enabled = true
    · rw [rulesLoopA_cons, if_pos hen]
      obtain ⟨bR, spR, indR, lrR, causeR⟩ :=
        initRuleA_inv g hrec self idx r.comps s hself
      rcases hR : initRuleA g rec self idx r.comps s with ⟨s1, st1⟩
      rw [hR] at bR spR indR lrR causeR
      simp only at bR spR indR lrR causeR
      have hself1 : self ∈ s1.visited := bR.vis hself
      cases st1 with
      | stOK =>
        have hlrf : r.isLeftRecursiveTo self = false :=
          initRuleA_stOK_not_leftrec g rec self idx r s (by rw [hR])
        have spR' : SelfProps (okRuleIdx g self) self s s1 :=
          SelfProps.mono
            (fun x hx => hx ▸ ⟨r, hget, hen, hlrf⟩)
            (spR (by simp))
        obtain ⟨bI, spI, indI, charI, causeI⟩ :=
          ih (idx + 1) s1 lr .stOK hself1 hdrop2 (by simp)
        refine ⟨bR.transB bI, ?_, ?_, ?_, ?_⟩
        · intro hni
          exact spR'.transS (spI hni)
        · intro hii hlen
          exact indI hii (by rw [bR.len]; exact hlen)
        · intro hni
          obtain ⟨flagged, hfl, hfc, hch⟩ := charI hni
          exact ⟨flagged, hfl,
            fun x hx => ⟨Nat.le_of_succ_le (hfc x hx).1, (hfc x hx).2⟩, hch⟩
        · intro hll
          rcases causeI hll with h' | h' | h' | h'
          · rcases causeR rfl h' with h'' | h''
            · exact Or.inl h''
            · by_cases hind :
                (rulesLoopA g rec self (idx + 1) rest s1 lr .stOK).2.2
                  = .stIndet
              · exact Or.inr (Or.inr (Or.inr hind))
              · exact Or.inr (Or.inl (bigKey_mono (spI hind).grows h''))
          · exact Or.inr (Or.inl h')
          · exact Or.inr (Or.inr (Or.inl h'))
          · exact Or.inr (Or.inr (Or.inr h'))
      | stIsLR =>
        have hrecr : r.isRecursiveTo self = true := by
          obtain ⟨c, hcm, hcr⟩ := lrR rfl
          unfold RuleM.isRecursiveTo
          exact List.any_eq_true.mpr ⟨c, hcm, hcr⟩
        have spR' : SelfProps (okRuleIdx g self) self s s1 := by
          by_cases hlrec : r.isLeftRecursiveTo self = true
          · obtain ⟨c, rest', hcs, hcr⟩ :
                ∃ c rest', r.comps = c :: rest' ∧ c.refersTo self = true := by
              revert hlrec
              unfold RuleM.isLeftRecursiveTo
              cases r.comps with
              | nil => simp
              | cons c rest' => exact fun h => ⟨c, rest', rfl, h⟩
            have := initRuleA_leftrec g rec self idx c rest' s hcr
            rw [hcs, this] at hR
            have hs1 : s1 = s.modify self
                (fun st => { st with isLL1 := false }) := by
              injection hR.symm
            rw [hs1]
            exact selfProps_clearLL1 _ self s
          · exact SelfProps.mono
              (fun x hx => hx ▸ ⟨r, hget, hen, by
                revert hlrec; cases r.isLeftRecursiveTo self <;> simp⟩)
              (spR (by simp))
        obtain ⟨bI, spI, indI, charI, causeI⟩ :=
          ih (idx + 1) s1 (lr ++ [idx]) .stIsLR hself1 hdrop2 (by simp)
        refine ⟨bR.transB bI, ?_, ?_, ?_, ?_⟩
        · intro hni
          exact spR'.transS (spI hni)
        · intro hii hlen
          obtain ⟨h1, h2, h3⟩ := indI hii (by rw [bR.len]; exact hlen)
          exact ⟨h1, h2, h3⟩
        · intro hni
          obtain ⟨flagged, hfl, hfc, hch⟩ := charI hni
          refine ⟨idx :: flagged, by rw [hfl]; simp, ?_, ?_⟩
          · intro x hx
            rcases List.mem_cons.mp hx with hx | hx
            · subst hx
              exact ⟨Nat.le_refl _, r, hget, hen, hrecr⟩
            · exact ⟨Nat.le_of_succ_le (hfc x hx).1, (hfc x hx).2⟩
          · rw [List.chain'_cons']
            refine ⟨?_, hch⟩
            intro b hb
            have := (hfc b (List.mem_of_mem_head? hb)).1
            omega
        · intro _
          by_cases hind :
              (rulesLoopA g rec self (idx + 1) rest s1 (lr ++ [idx])
                .stIsLR).2.2 = .stIndet
          · exact Or.inr (Or.inr (Or.inr hind))
          · obtain ⟨flagged, hfl, -, -⟩ := charI hind
            refine Or.inr (Or.inr (Or.inl ?_))
            rw [hfl]
            intro hcontra
            have : lr.length = lr.length + 1 + flagged.length := by
              have := congrArg List.length hcontra
              simpa using this.symm
            omega
      | stIndet =>
        refine ⟨bR, ?_, ?_, ?_, ?_⟩
        · intro hni
          exact absurd rfl hni
        · intro _ hlen
          obtain ⟨h1, h2⟩ := indR rfl hlen
          exact ⟨h1, h2, rfl⟩
        · intro hni
          exact absurd rfl hni
        · intro _
          exact Or.inr (Or.inr (Or.inr rfl))
    · rw [rulesLoopA_cons, if_neg hen]
      obtain ⟨bI, spI, indI, charI, causeI⟩ :=
        ih (idx + 1) s lr st hself hdrop2 hst
      refine ⟨bI, spI, indI, ?_, causeI⟩
      intro hni
      obtain ⟨flagged, hfl, hfc, hch⟩ := charI hni
      exact ⟨flagged, hfl,
        fun x hx => ⟨Nat.le_of_succ_le (hfc x hx).1, (hfc x hx).2⟩, hch⟩

/-- Unfolding of one analysis step into the visited check, rule phase,
broadcast and `got_initial_terminals_` flag. -/
theorem initNT_succ (g : GrammarM) (fuel m : Nat) (s : AState) :
    initNT g (fuel + 1) m s =
      if m ∈ s.visited then (s, .stOK)
      else
        ((broadcastState g fuel m s).modify m
           (fun st => { st with got := true }),
         (phase1 g fuel m s).2.2) := by
  rw [initNT]
  by_cases hv : m ∈ s.visited
  · rw [if_pos hv, if_pos hv]
  · rw [if_neg hv, if_neg hv]
    rfl

theorem entryState_visited (m : Nat) (s : AState) :
    (entryState m s).visited = m :: s.visited := rfl

theorem entryState_entries_length (m : Nat) (s : AState) :
    (entryState m s).entries.length = s.entries.length := by
  unfold entryState
  rw [AState.modify_entries_length]

/-- The analysis call is well behaved at every fuel: already-visited
nonterminals keep their state, the visited set grows, and the entry list
keeps its length. -/
theorem recOK_initNT (g : GrammarM) : ∀ fuel, RecOK (initNT g fuel) := by
  intro fuel
  induction fuel with
  | zero => exact ⟨fun _ _ _ _ => rfl, fun _ _ _ h => h, fun _ _ => rfl⟩
  | succ fuel ih =>
    have key : ∀ m s,
        s.visited ⊆ (initNT g (fuel + 1) m s).1.visited ∧
        (initNT g (fuel + 1) m s).1.entries.length = s.entries.length ∧
        ∀ n ∈ s.visited, (initNT g (fuel + 1) m s).1.get n = s.get n := by
      intro m s
      rw [initNT_succ]
      by_cases hv : m ∈ s.visited
      · rw [if_pos hv]
        exact ⟨fun _ h => h, rfl, fun _ _ => rfl⟩
      · rw [if_neg hv]
        have hmem : m ∈ (entryState m s).visited := by
          rw [entryState_visited]
          exact List.mem_cons_self m _
        obtain ⟨bI, -, -, -, -⟩ :=
          rulesLoopA_inv g ih m (ntRules g m) 0 (entryState m s) []
            .stOK hmem rfl (by simp)
        refine ⟨?_, ?_, ?_⟩
        · intro x hx
          have h1 : x ∈ (entryState m s).visited := by
            rw [entryState_visited]
            exact List.mem_cons_of_mem _ hx
          have h2 := bI.vis h1
          rw [AState.modify_visited]
          unfold broadcastState
          by_cases hemp : (phase1 g fuel m s).2.1.isEmpty = true
          · rw [if_pos hemp]
            exact h2
          · rw [if_neg hemp, AState.modify_visited]
            exact h2
        · rw [AState.modify_entries_length]
          unfold broadcastState
          by_cases hemp : (phase1 g fuel m s).2.1.isEmpty = true
          · rw [if_pos hemp]
            rw [show ((phase1 g fuel m s).1.entries.length
                  = (entryState m s).entries.length) from bI.len,
              entryState_entries_length]
          · rw [if_neg hemp, AState.modify_entries_length]
            rw [show ((phase1 g fuel m s).1.entries.length
                  = (entryState m s).entries.length) from bI.len,
              entryState_entries_length]
        · intro n hn
          have hne : n ≠ m := fun h => hv (h ▸ hn)
          have hn2 : n ∈ (entryState m s).visited := by
            rw [entryState_visited]
            exact List.mem_cons_of_mem _ hn
          have he : (entryState m s).get n = s.get n := by
            unfold entryState
            rw [AState.get_modify_ne _ _ _ _ hne]
            rfl
          have hf := bI.frame n hn2 hne
          rw [AState.get_modify_ne _ _ _ _ hne]
          unfold broadcastState
          by_cases hemp : (phase1 g fuel m s).2.1.isEmpty = true
          · rw [if_pos hemp]
            rw [show ((phase1 g fuel m s).1.get n = (entryState m s).get n)
                from hf, he]
          · rw [if_neg hemp, AState.get_modify_ne _ _ _ _ hne]
            rw [show ((phase1 g fuel m s).1.get n = (entryState m s).get n)
                from hf, he]
    exact ⟨fun m s n hn => (key m s).2.2 n hn, fun m s => (key m s).1,
      fun m s => (key m s).2.1⟩

/-- The early `IS_LR` return happens right after `is_ll1_` was cleared,
so the walk leaves `is_ll1_` false in that case. -/
theorem walkComps_isLR_ll1 (g : GrammarM)
    {rec : Nat → AState → AState × AStatus} (hrec : RecOK rec)
    (self ri : Nat) :
    ∀ (comps : List CompM) (s : AState) (rm lp : Bool),
      self < s.entries.length →
      (walkComps g rec self ri comps s rm lp).2 = .outIsLR →
      (((walkComps g rec self ri comps s rm lp).1).get self).isLL1
        = false := by
  intro comps
  induction comps with
  | nil =>
    intro s rm lp _ h
    exact WalkOut.noConfusion h
  | cons c rest ih =>
    intro s rm lp hlen
    rw [walkComps_cons]
    by_cases hct : c.isTerminal = true
    · rw [if_pos hct]
      by_cases h0 : c.terminal = 0
      · rw [if_pos h0]
        by_cases hrm : (rm && c.isOptional) = true
        · rw [if_pos hrm]
          exact ih s _ _ hlen
        · rw [if_neg hrm]
          exact fun h => WalkOut.noConfusion h
      · rw [if_neg h0]
        by_cases hrm : (rm && c.isOptional) = true
        · rw [if_pos hrm]
          exact ih _ _ _ (by rw [AState.modify_entries_length]; exact hlen)
        · rw [if_neg hrm]
          exact fun h => WalkOut.noConfusion h
    · rw [if_neg hct]
      by_cases hnt : c.nt = self
      · rw [if_pos hnt]
        intro _
        rw [AState.get_modify_self s self _ hlen]
      · rw [if_neg hnt]
        by_cases hemp : (((if (s.get c.nt).got then s
              else (rec c.nt s).1).get c.nt).terminals).isEmpty = true
        · rw [if_pos hemp]
          exact fun h => WalkOut.noConfusion h
        · rw [if_neg hemp]
          have hlen' :
              self < (if (s.get c.nt).got then s
                else (rec c.nt s).1).entries.length := by
            by_cases hg : (s.get c.nt).got = true
            · rw [if_pos hg]
              exact hlen
            · rw [if_neg hg, hrec.len c.nt s]
              exact hlen
          by_cases hrm :
              (rm && (c.isOptional || (s.get c.nt).matchesEmpty)) = true
          · rw [if_pos hrm]
            refine ih _ _ _ ?_
            rw [(foldFirstSets_inv self ri _ _).1.len]
            exact hlen'
          · rw [if_neg hrm]
            exact fun h => WalkOut.noConfusion h

/-- `IS_LR` status of one rule leaves `is_ll1_` false. -/
theorem initRuleA_isLR_ll1 (g : GrammarM)
    {rec : Nat → AState → AState × AStatus} (hrec : RecOK rec)
    (self ri : Nat) (comps : List CompM) (s : AState)
    (hlen : self < s.entries.length)
    (h : (initRuleA g rec self ri comps s).2 = .stIsLR) :
    ((initRuleA g rec self ri comps s).1.get self).isLL1 = false := by
  unfold initRuleA at h ⊢
  rcases hw : walkComps g rec self ri comps s true false with ⟨w1, wout⟩
  cases wout with
  | outIsLR =>
    have hres :=
      walkComps_isLR_ll1 g hrec self ri comps s true false hlen
        (by rw [hw])
    rw [hw] at hres
    exact hres
  | outDone a b c =>
    rw [hw] at h
    simp only at h
    by_cases hlp : (b || c) = true
    · rw [if_pos hlp] at h
      exact AStatus.noConfusion h
    · rw [if_neg hlp] at h
      by_cases hme : a = true
      · rw [if_pos hme] at h
        exact AStatus.noConfusion h
      · rw [if_neg hme] at h
        exact AStatus.noConfusion h

/-- If `is_ll1_` is still true after the rule loop, no left-recursive
rule was flagged: the collected `lr_rules` are exactly the input ones. -/
theorem rulesLoopA_ll1_lr (g : GrammarM)
    {rec : Nat → AState → AState × AStatus} (hrec : RecOK rec)
    (self : Nat) :
    ∀ (rules : List RuleM) (idx : Nat) (s : AState) (lr : List Nat)
      (st : AStatus),
      self ∈ s.visited → self < s.entries.length →
      (ntRules g self).drop idx = rules →
      ((rulesLoopA g rec self idx rules s lr st).1.get self).isLL1 = true →
      (rulesLoopA g rec self idx rules s lr st).2.1 = lr := by
  intro rules
  induction rules with
  | nil =>
    intro idx s lr st _ _ _ _
    rfl
  | cons r rest ih =>
    intro idx s lr st hself hlen hdrop hll1
    obtain ⟨hget, hdrop2⟩ := drop_cons_facts hdrop
    by_cases hen : r.enabled = true
    · rw [rulesLoopA_cons, if_pos hen] at hll1 ⊢
      obtain ⟨bR, -, indR, -, -⟩ :=
        initRuleA_inv g hrec self idx r.comps s hself
      rcases hR : initRuleA g rec self idx r.comps s with ⟨s1, st1⟩
      rw [hR] at bR indR
      rw [hR] at hll1
      simp only at bR indR
      have hself1 : self ∈ s1.visited := bR.vis hself
      have hlen1 : self < s1.entries.length := by
        rw [bR.len]
        exact hlen
      cases st1 with
      | stOK =>
        exact ih (idx + 1) s1 lr .stOK hself1 hlen1 hdrop2 hll1
      | stIsLR =>
        have hfalse : (s1.get self).isLL1 = false := by
          have hx :=
            initRuleA_isLR_ll1 g hrec self idx r.comps s hlen (by rw [hR])
          rw [hR] at hx
          exact hx
        obtain ⟨-, spI, indI, -, -⟩ :=
          rulesLoopA_inv g hrec self rest (idx + 1) s1 (lr ++ [idx])
            .stIsLR hself1 hdrop2 (by simp)
        by_cases hind :
            (rulesLoopA g rec self (idx + 1) rest s1 (lr ++ [idx])
              .stIsLR).2.2 = .stIndet
        · obtain ⟨-, h2, -⟩ := indI hind hlen1
          have hc : (false : Bool) = true := by
            rw [← h2]
            exact hll1
          exact Bool.noConfusion hc
        · have hs1 := (spI hind).ll1Mono hll1
          rw [hfalse] at hs1
          exact Bool.noConfusion hs1
      | stIndet =>
        obtain ⟨-, h2⟩ := indR rfl hlen
        have hll1' : (s1.get self).isLL1 = true := hll1
        rw [h2] at hll1'
        exact Bool.noConfusion hll1'
    · rw [rulesLoopA_cons, if_neg hen] at hll1 ⊢
      exact ih (idx + 1) s lr st hself hlen hdrop2 hll1

/-- Looking a key up after the left-recursion broadcast. -/
theorem lookupKey_lrBroadcast (k : Nat) (lr : List Nat) (m : TermMap) :
    lookupKey k (lrBroadcast lr m) =
      (lookupKey k m).map (fun v => v ++ lr) := by
  induction m with
  | nil => rfl
  | cons kv rest ih =>
    rcases kv with ⟨k2, v⟩
    simp only [lrBroadcast, List.map_cons] at ih ⊢
    by_cases hk : k2 = k
    · simp [lookupKey, hk]
    · simp only [lookupKey, hk, if_false, if_neg]
      exact ih

theorem analyzeEntry_len (g : GrammarM) (n : Nat) :
    (analyzeEntry g n).entries.length = g.length := by
  unfold analyzeEntry
  rw [AState.modify_entries_length]
  simp [initialAState]

theorem analyzeEntry_get (g : GrammarM) (n : Nat) (h : n < g.length) :
    (analyzeEntry g n).get n =
      { got := false, isLL1 := true, matchesEmpty := false,
        terminals := [] } := by
  have hlen : n < (entryBase g n).entries.length := by
    simpa [entryBase, initialAState] using h
  have hbase : (entryBase g n).get n = NTState.initial := by
    unfold entryBase AState.get initialAState
    simp [List.getD, h]
  show ((entryBase g n).modify n (fun st =>
    { st with isLL1 := true, matchesEmpty := false })).get n = _
  rw [AState.get_modify_self _ _ _ hlen, hbase]
  rfl

/-- Consolidated facts about the completed lazy analysis of `n`: how the
final fields relate to the rule phase, growth and smallness of the
first-set, the indeterminate shape, the `lr_rules` characterisation, and
the two `is_ll1_` cause directions. -/
theorem analyze_master (g : GrammarM) (n : Nat) (h : n < g.length) :
    ((analyzedState g n).isLL1 = ((analyzePhase1 g n).1.get n).isLL1) ∧
    ((analyzedState g n).terminals =
       if (analyzeLRRules g n).isEmpty
       then ((analyzePhase1 g n).1.get n).terminals
       else lrBroadcast (analyzeLRRules g n)
         (((analyzePhase1 g n).1.get n).terminals)) ∧
    (analyzeStatus g n ≠ .stIndet →
       mapGrows (okRuleIdx g n) []
         (((analyzePhase1 g n).1.get n).terminals)) ∧
    (analyzeStatus g n ≠ .stIndet →
       ((analyzePhase1 g n).1.get n).isLL1 = true →
       smallMap (((analyzePhase1 g n).1.get n).terminals)) ∧
    (analyzeStatus g n = .stIndet →
       ((analyzePhase1 g n).1.get n).terminals = [] ∧
       ((analyzePhase1 g n).1.get n).isLL1 = false ∧
       analyzeLRRules g n = []) ∧
    (analyzeStatus g n ≠ .stIndet →
       (∀ x ∈ analyzeLRRules g n, ∃ rr, (ntRules g n).get? x = some rr ∧
          rr.enabled = true ∧ rr.isRecursiveTo n = true) ∧
       List.Chain' (fun a b => a < b) (analyzeLRRules g n)) ∧
    (((analyzePhase1 g n).1.get n).isLL1 = false →
       bigKey (((analyzePhase1 g n).1.get n).terminals) ∨
       analyzeLRRules g n ≠ [] ∨ analyzeStatus g n = .stIndet) ∧
    (((analyzePhase1 g n).1.get n).isLL1 = true →
       analyzeLRRules g n = []) := by
  have hElen : n < (analyzeEntry g n).entries.length := by
    rw [analyzeEntry_len]
    exact h
  have hEvis : n ∈ (analyzeEntry g n).visited := by
    show n ∈ [n]
    simp
  have hEget := analyzeEntry_get g n h
  have hEterm : ((analyzeEntry g n).get n).terminals = [] := by
    rw [hEget]
  have hEll1 : ((analyzeEntry g n).get n).isLL1 = true := by
    rw [hEget]
  obtain ⟨bI, spI, indI, charI, causeI⟩ :=
    rulesLoopA_inv g (recOK_initNT g g.length) n (ntRules g n) 0
      (analyzeEntry g n) [] .stOK hEvis rfl (by simp)
  have hlenP1 : n < (analyzePhase1 g n).1.entries.length := by
    have hx : (analyzePhase1 g n).1.entries.length
        = (analyzeEntry g n).entries.length := bI.len
    rw [hx]
    exact hElen
  have hlenBC : n < (analyzeBroadcastState g n).entries.length := by
    unfold analyzeBroadcastState
    by_cases hemp : (analyzeLRRules g n).isEmpty = true
    · rw [if_pos hemp]
      exact hlenP1
    · rw [if_neg hemp, AState.modify_entries_length]
      exact hlenP1
  have hFSll1 : (analyzedState g n).isLL1
      = ((analyzeBroadcastState g n).get n).isLL1 := by
    show ((analyzeNT g n).1.get n).isLL1 = _
    rw [analyzeNT_unfold]
    show ((analyzeFinalState g n).get n).isLL1 = _
    unfold analyzeFinalState
    rw [AState.get_modify_self _ _ _ hlenBC]
  have hFSterm : (analyzedState g n).terminals
      = ((analyzeBroadcastState g n).get n).terminals := by
    show ((analyzeNT g n).1.get n).terminals = _
    rw [analyzeNT_unfold]
    show ((analyzeFinalState g n).get n).terminals = _
    unfold analyzeFinalState
    rw [AState.get_modify_self _ _ _ hlenBC]
  have hBCll1 : ((analyzeBroadcastState g n).get n).isLL1
      = ((analyzePhase1 g n).1.get n).isLL1 := by
    unfold analyzeBroadcastState
    by_cases hemp : (analyzeLRRules g n).isEmpty = true
    · rw [if_pos hemp]
    · rw [if_neg hemp, AState.get_modify_self _ _ _ hlenP1]
  have hBCterm : ((analyzeBroadcastState g n).get n).terminals
      = if (analyzeLRRules g n).isEmpty
        then ((analyzePhase1 g n).1.get n).terminals
        else lrBroadcast (analyzeLRRules g n)
          (((analyzePhase1 g n).1.get n).terminals) := by
    unfold analyzeBroadcastState
    by_cases hemp : (analyzeLRRules g n).isEmpty = true
    · rw [if_pos hemp, if_pos hemp]
    · rw [if_neg hemp, if_neg hemp, AState.get_modify_self _ _ _ hlenP1]
  refine ⟨hFSll1.trans hBCll1, hFSterm.trans hBCterm, ?_, ?_, ?_, ?_, ?_, ?_⟩
  · intro hs
    have hgrow := (spI hs).grows
    rw [hEterm] at hgrow
    exact hgrow
  · intro hs hT
    have hsm0 : smallMap ([] : TermMap) := fun k l hl => Option.noConfusion hl
    exact (spI hs).small (fun _ => by rw [hEterm]; exact hsm0) hT
  · intro hs
    obtain ⟨h1, h2, h3⟩ := indI hs hElen
    exact ⟨h1, h2, h3⟩
  · intro hs
    obtain ⟨flagged, hfl, hfc, hch⟩ := charI hs
    have hfl' : analyzeLRRules g n = flagged := by
      have hx : analyzeLRRules g n = [] ++ flagged := hfl
      rw [List.nil_append] at hx
      exact hx
    rw [hfl']
    exact ⟨fun x hx => (hfc x hx).2, hch⟩
  · intro hf
    rcases causeI hf with hc | hc | hc | hc
    · rw [hEll1] at hc
      exact Bool.noConfusion hc
    · exact Or.inl hc
    · exact Or.inr (Or.inl hc)
    · exact Or.inr (Or.inr hc)
  · intro hT
    exact rulesLoopA_ll1_lr g (recOK_initNT g g.length) n (ntRules g n) 0
      (analyzeEntry g n) [] .stOK hEvis hElen rfl hT

/-- C3, counterexample to the spec's claim: in grammar `N ::= N a` the
analysis completes with an empty first-set (the strictly left-recursive
rule records no terminal), so every terminal key vacuously maps to
exactly one rule index, yet `is_ll1` is false — the claimed equivalence
fails. -/
theorem is_ll1_iff_singleton_keys_cex :
    ¬ ((analyzedState gSelfLoop 0).isLL1 = true ↔
        ∀ k l, lookupKey k (analyzedState gSelfLoop 0).terminals = some l →
          l.length = 1) := by
  intro hiff
  have hT : (analyzedState gSelfLoop 0).isLL1 = true := by
    refine hiff.mpr ?_
    intro k l hl
    have hterm : (analyzedState gSelfLoop 0).terminals = [] := by decide
    rw [hterm] at hl
    exact Option.noConfusion hl
  exact absurd hT (by decide)

/-- C3 (amended): after the lazy analysis of nonterminal `n` completes,
`is_ll1` is true iff the analysis was not indeterminate, no rule was
flagged left-recursive, and every terminal key of the first-set maps to
exactly one rule index; an indeterminate analysis leaves `is_ll1` false
and an empty first-set. -/
theorem is_ll1_iff_singleton_keys (g : GrammarM) (n : Nat)
    (h : n < g.length) :
    ((analyzedState g n).isLL1 = true ↔
       (analyzeStatus g n ≠ .stIndet ∧ analyzeLRRules g n = [] ∧
        ∀ k l, lookupKey k (analyzedState g n).terminals = some l →
          l.length = 1)) ∧
    (analyzeStatus g n = .stIndet →
       (analyzedState g n).isLL1 = false ∧
       (analyzedState g n).terminals = []) := by
  obtain ⟨hll1F, htermF, hgrow, hsmall, hind, hchar, hcause, hlr0⟩ :=
    analyze_master g n h
  constructor
  · constructor
    · intro hT
      have hP1T : ((analyzePhase1 g n).1.get n).isLL1 = true := by
        rw [← hll1F]
        exact hT
      have hLnil : analyzeLRRules g n = [] := hlr0 hP1T
      have hemp : (analyzeLRRules g n).isEmpty = true := by
        rw [hLnil]
        rfl
      have hSok : analyzeStatus g n ≠ .stIndet := by
        intro hS
        obtain ⟨-, hf, -⟩ := hind hS
        rw [hf] at hP1T
        exact Bool.noConfusion hP1T
      refine ⟨hSok, hLnil, ?_⟩
      intro k l hl
      rw [htermF, if_pos hemp] at hl
      have hle := hsmall hSok hP1T k l hl
      have hne := ((hgrow hSok).2 k l hl rfl).1
      have hpos : 0 < l.length := List.length_pos.mpr hne
      omega
    · rintro ⟨hSok, hLnil, hsing⟩
      have hemp : (analyzeLRRules g n).isEmpty = true := by
        rw [hLnil]
        rfl
      by_cases hP1 : ((analyzePhase1 g n).1.get n).isLL1 = true
      · rw [hll1F]
        exact hP1
      · have hP1f : ((analyzePhase1 g n).1.get n).isLL1 = false := by
          cases hb : ((analyzePhase1 g n).1.get n).isLL1
          · rfl
          · exact absurd hb hP1
        rcases hcause hP1f with hc | hc | hc
        · obtain ⟨k, l, hl, h2⟩ := hc
          have hfin : lookupKey k (analyzedState g n).terminals = some l := by
            rw [htermF, if_pos hemp]
            exact hl
          have := hsing k l hfin
          omega
        · exact absurd hLnil hc
        · exact absurd hc hSok
  · intro hS
    obtain ⟨ht0, hf0, hLnil⟩ := hind hS
    have hemp : (analyzeLRRules g n).isEmpty = true := by
      rw [hLnil]
      rfl
    refine ⟨?_, ?_⟩
    · rw [hll1F]
      exact hf0
    · rw [htermF, if_pos hemp]
      exact ht0

theorem is_ll1_iff_singleton_keys_witness :
    0 < gTwoTerm.length ∧
    (((analyzedState gTwoTerm 0).isLL1 = true ↔
        (analyzeStatus gTwoTerm 0 ≠ .stIndet ∧
         analyzeLRRules gTwoTerm 0 = [] ∧
         ∀ k l, lookupKey k (analyzedState gTwoTerm 0).terminals = some l →
           l.length = 1)) ∧
     (analyzeStatus gTwoTerm 0 = .stIndet →
        (analyzedState gTwoTerm 0).isLL1 = false ∧
        (analyzedState gTwoTerm 0).terminals = [])) :=
  ⟨by decide, is_ll1_iff_singleton_keys gTwoTerm 0 (by decide)⟩

/-- C4, counterexample to the spec's claim: in grammar `N ::= a N | a`
rule 0 is left-recursive in the claim's sense (it contains a component
referring back to `N`), yet key `a` maps to `[0, 1]`: the
left-recursive rule's index appears before the non-left-recursive rule
1, because the walk records rule 0's first terminal in normal position
and stops before ever reaching the self-reference. -/
theorem lr_rules_appended_cex :
    (∃ r ∈ ntRules gRecMid 0, r.enabled = true ∧ r.isRecursiveTo 0 = true) ∧
    ¬ (∀ kv ∈ (analyzedState gRecMid 0).terminals,
         lrAfterNonLR gRecMid 0 kv.2 = true) := by
  decide

/-- C4 (amended): when the analysis of `n` is not indeterminate, the
flagged `lr_rules` are enabled self-referencing rules listed in
increasing order, and every terminal key's rule-index list is its walk
portion — indices of enabled rules that are not strictly left-recursive
— followed by the whole flagged `lr_rules` list. -/
theorem lr_rules_appended (g : GrammarM) (n : Nat) (h : n < g.length)
    (hs : analyzeStatus g n ≠ .stIndet) :
    (∀ x ∈ analyzeLRRules g n, ∃ r, (ntRules g n).get? x = some r ∧
       r.enabled = true ∧ r.isRecursiveTo n = true) ∧
    List.Chain' (fun a b => a < b) (analyzeLRRules g n) ∧
    (∀ k l, lookupKey k (analyzedState g n).terminals = some l →
       ∃ w, l = w ++ analyzeLRRules g n ∧
         ∀ x ∈ w, ∃ r, (ntRules g n).get? x = some r ∧ r.enabled = true ∧
           r.isLeftRecursiveTo n = false) := by
  obtain ⟨-, htermF, hgrow, -, -, hchar, -, -⟩ := analyze_master g n h
  obtain ⟨hfc, hch⟩ := hchar hs
  refine ⟨hfc, hch, ?_⟩
  intro k l hl
  rw [htermF] at hl
  by_cases hemp : (analyzeLRRules g n).isEmpty = true
  · rw [if_pos hemp] at hl
    have hLnil : analyzeLRRules g n = [] := by
      cases hLl : analyzeLRRules g n with
      | nil => rfl
      | cons a t =>
        rw [hLl] at hemp
        exact absurd hemp (by simp)
    refine ⟨l, by rw [hLnil, List.append_nil], ?_⟩
    intro x hx
    obtain ⟨r, h1, h2, h3⟩ := ((hgrow hs).2 k l hl rfl).2 x hx
    exact ⟨r, h1, h2, h3⟩
  · rw [if_neg hemp, lookupKey_lrBroadcast] at hl
    cases hv : lookupKey k (((analyzePhase1 g n).1.get n).terminals) with
    | none =>
      rw [hv] at hl
      exact Option.noConfusion hl
    | some v =>
      rw [hv] at hl
      have hlv : l = v ++ analyzeLRRules g n := by
        simp only [Option.map_some'] at hl
        injection hl with h2
        exact h2.symm
      refine ⟨v, hlv, ?_⟩
      intro x hx
      obtain ⟨r, h1, h2, h3⟩ := ((hgrow hs).2 k v hv rfl).2 x hx
      exact ⟨r, h1, h2, h3⟩

theorem countP_set_same (q : SNode → Bool) :
    ∀ (l : List SNode) (i : Nat) (a : SNode), i < l.length →
      q a = q (l.getD i dummyNode) →
      (l.set i a).countP q = l.countP q := by
  intro l
  induction l with
  | nil =>
    intro i a h _
    simp at h
  | cons b rest ih =>
    intro i a h hq
    cases i with
    | zero =>
      simp [List.getD] at hq
      simp [List.set, List.countP_cons, hq]
    | succ j =>
      have hj : j < rest.length := by simpa using h
      have hq' : q a = q (rest.getD j dummyNode) := by
        simpa [List.getD] using hq
      simp [List.set, List.countP_cons, ih j a hj hq']

theorem getD_append_lt (l l2 : List SNode) (i : Nat) (h : i < l.length) :
    (l ++ l2).getD i dummyNode = l.getD i dummyNode := by
  simp [List.getD, List.getElem?_append, h]

theorem getD_set_self (l : List SNode) (i : Nat) (a : SNode)
    (h : i < l.length) : (l.set i a).getD i dummyNode = a := by
  simp [List.getD, List.getElem?_set_self', h]

theorem getD_set_ne (l : List SNode) (i j : Nat) (a : SNode) (h : j ≠ i) :
    (l.set i a).getD j dummyNode = l.getD j dummyNode := by
  simp [List.getD, List.getElem?_set_ne (fun hh => h hh.symm)]

/-- Facts about one `addChild` call on an in-range parent. -/
theorem addChildE_ok (st : SState) (p c : Nat) (hne : c ≠ p)
    (hp : p < st.nodes.length) :
    ∃ st', addChildE st p c = .ok st' ∧
      st'.nodes.length = st.nodes.length ∧
      countPacked st' = countPacked st ∧
      st'.consed = st.consed ∧
      (∀ q, q ≠ p → getN st' q = getN st q) ∧
      (∀ x, x ∈ (getN st' p).children ↔ x = c ∨ x ∈ (getN st p).children) := by
  unfold addChildE
  rw [if_neg hne]
  set pn := getN st p with hpn
  set pn2 := if (getN st c).isPackedB && !pn.children.isEmpty then
      { pn with children := c :: pn.children }
    else
      { pn with children := pn.children ++ [c] } with hpn2
  refine ⟨_, rfl, by simp, ?_, rfl, ?_, ?_⟩
  · show countPacked { st with nodes := st.nodes.set p pn2 } = countPacked st
    unfold countPacked
    refine countP_set_same _ st.nodes p pn2 hp ?_
    rw [hpn2]
    by_cases hb : ((getN st c).isPackedB && !pn.children.isEmpty) = true
    · rw [if_pos hb]
      rfl
    · rw [if_neg hb]
      rfl
  · intro q hq
    show (st.nodes.set p pn2).getD q dummyNode = getN st q
    rw [getD_set_ne st.nodes p q pn2 hq]
    rfl
  · intro x
    show x ∈ ((st.nodes.set p pn2).getD p dummyNode).children ↔ _
    rw [getD_set_self st.nodes p pn2 hp, hpn2]
    by_cases hb : ((getN st c).isPackedB && !pn.children.isEmpty) = true
    · rw [if_pos hb]
      simp [hpn]
    · rw [if_neg hb]
      simp [hpn, or_comm]

/-- Folding `addChild` over a list of children adds exactly those
children (in some order) and nothing else. -/
theorem foldAdopt (p : Nat) :
    ∀ (cs : List Nat) (st : SState),
      (∀ c ∈ cs, c ≠ p) → p < st.nodes.length →
      ∃ st', cs.foldlM (fun acc c => addChildE acc p c) st = .ok st' ∧
        st'.nodes.length = st.nodes.length ∧
        countPacked st' = countPacked st ∧
        st'.consed = st.consed ∧
        (∀ q, q ≠ p → getN st' q = getN st q) ∧
        (∀ x, x ∈ (getN st' p).children ↔ x ∈ cs ∨ x ∈ (getN st p).children) := by
  intro cs
  induction cs with
  | nil =>
    intro st _ _
    exact ⟨st, rfl, rfl, rfl, rfl, fun _ _ => rfl, fun x => by simp⟩
  | cons c rest ih =>
    intro st hcs hp
    obtain ⟨st1, h1, hlen1, hcp1, hcons1, hq1, hm1⟩ :=
      addChildE_ok st p c (hcs c (by simp)) hp
    obtain ⟨st2, h2, hlen2, hcp2, hcons2, hq2, hm2⟩ :=
      ih st1 (fun x hx => hcs x (by simp [hx])) (by rw [hlen1]; exact hp)
    refine ⟨st2, ?_, by rw [hlen2, hlen1], by rw [hcp2, hcp1],
      by rw [hcons2, hcons1], fun q hq => by rw [hq2 q hq, hq1 q hq], ?_⟩
    · rw [List.foldlM_cons, h1]
      exact h2
    · intro x
      rw [hm2 x, hm1 x]
      simp only [List.mem_cons]
      tauto

theorem pushNode_length (st : SState) (key : SNode) :
    (pushNode st key).nodes.length = st.nodes.length + 1 := by
  simp [pushNode]

theorem countPacked_pushNode (st : SState) (key : SNode)
    (hkey : key.isPackedB = false) :
    countPacked (pushNode st key) = countPacked st := by
  unfold countPacked pushNode
  simp [List.countP_append, hkey]

theorem getN_pushNode_self (st : SState) (key : SNode) :
    getN (pushNode st key) st.nodes.length = key := by
  unfold getN pushNode
  simp [List.getD, List.getElem?_concat_length]

/-- The two outcomes of a `getNode` lookup. -/
theorem getNode_cases (st : SState) (key : SNode) :
    (∃ i, getNode st key = (st, i, false) ∧
       SNode.keyEq (getN st i) key = true ∧ i ∈ st.consed) ∨
    getNode st key = (pushNode st key, st.nodes.length, true) := by
  unfold getNode
  cases hf : st.consed.find? (fun j => SNode.keyEq (getN st j) key) with
  | none => exact Or.inr rfl
  | some i =>
    have hkey := List.find?_some hf
    exact Or.inl ⟨i, rfl, hkey, List.mem_of_find?_eq_some hf⟩

/-- Reduction of `getNodeP` to the recursion-flattening branch when not
on the last slot and the flattening conditions hold. -/
theorem getNodeP_flatten_eq (g : GrammarM) (slot : SlotRef) (right : Nat)
    (st : SState) (hlast : onLastSlot g slot = false)
    (hcond : ((none : Option Nat).isNone && (getN st right).isNonTerminalB &&
       decide ((getN st right).label = .ntL slot.nt) &&
       slotIsRecursive g slot && !keepRec g slot.nt) = true) :
    getNodeP g slot none right st =
      (do
        let st2 ← (getN st right).children.foldlM
          (fun acc c =>
            addChildE acc (getNode st (flattenKey st slot right)).2.1 c)
          (getNode st (flattenKey st slot right)).1
        pure (st2, (getNode st (flattenKey st slot right)).2.1)) := by
  simp only [getNodeP, flattenKey, hlast, hcond, Bool.false_eq_true,
    if_false, if_true, ite_self, Option.isNone_none, Bool.true_and]
  have hcond2 : ((getN st right).isNonTerminalB &&
      decide ((getN st right).label = SLabel.ntL slot.nt) &&
      slotIsRecursive g slot && !keepRec g slot.nt) = true := by
    simpa using hcond
  rw [if_pos hcond2]

/-- C2 (amended): in `getNodeP`, when *not on the last slot*, with no
left operand, the right operand a nonterminal symbol node of the rule's
own nonterminal, a self-recursive slot and `keep_recursion` unset, the
right operand's children are adopted as the parent's children and no
packed node is created; only the intermediate parent node itself may be
allocated.  (On the last slot the code takes the nonterminal-node path
instead and does create a packed child, so the claim's missing
not-on-last-slot condition matters.) -/
theorem getNodeP_flatten (g : GrammarM) (slot : SlotRef) (right : Nat)
    (st : SState)
    (hwf : ∀ i ∈ st.consed, i < st.nodes.length)
    (hlast : onLastSlot g slot = false)
    (hnt : (getN st right).label = .ntL slot.nt)
    (hrec : slotIsRecursive g slot = true)
    (hkeep : keepRec g slot.nt = false)
    (hch : ∀ c ∈ (getN st right).children, (getN st c).isPackedB = true) :
    ∃ st' ret, getNodeP g slot none right st = .ok (st', ret) ∧
      countPacked st' = countPacked st ∧
      st'.nodes.length ≤ st.nodes.length + 1 ∧
      (∀ c, c ∈ (getN st' ret).children ↔
         (c ∈ (getN st right).children ∨
          (ret < st.nodes.length ∧ c ∈ (getN st ret).children))) := by
  have hcond : ((none : Option Nat).isNone && (getN st right).isNonTerminalB &&
      decide ((getN st right).label = .ntL slot.nt) &&
      slotIsRecursive g slot && !keepRec g slot.nt) = true := by
    simp [SNode.isNonTerminalB, hnt, hrec, hkeep]
  rw [getNodeP_flatten_eq g slot right st hlast hcond]
  rcases getNode_cases st (flattenKey st slot right) with ⟨i, hEq, hkey, hmem⟩ | hEq
  · rw [hEq]
    have hi : i < st.nodes.length := hwf i hmem
    have hlab : (getN st i).label = .intL slot := by
      have hk := hkey
      unfold SNode.keyEq at hk
      simp only [Bool.and_eq_true, decide_eq_true_eq] at hk
      exact hk.1.1.trans rfl
    have hne : ∀ c ∈ (getN st right).children, c ≠ i := by
      intro c hc hci
      have hpk := hch c hc
      rw [hci] at hpk
      rw [SNode.isPackedB, hlab] at hpk
      cases hpk
    obtain ⟨st', hfold, hlen, hcp, -, -, hmemf⟩ :=
      foldAdopt i (getN st right).children st hne hi
    refine ⟨st', i, ?_, hcp, by omega, ?_⟩
    · show (do
        let st2 ← (getN st right).children.foldlM
          (fun acc c => addChildE acc i c) st
        pure (st2, i)) = Except.ok (st', i)
      rw [hfold]
      rfl
    · intro c
      rw [hmemf c]
      constructor
      · rintro (h | h)
        · exact Or.inl h
        · exact Or.inr ⟨hi, h⟩
      · rintro (h | ⟨-, h⟩)
        · exact Or.inl h
        · exact Or.inr h
  · rw [hEq]
    have hne : ∀ c ∈ (getN st right).children, c ≠ st.nodes.length := by
      intro c hc hci
      have hpk := hch c hc
      have hout : getN st c = dummyNode := by
        unfold getN
        rw [hci]
        exact List.getD_eq_default _ _ (by omega)
      rw [hout] at hpk
      cases hpk
    have hlen1 : (pushNode st (flattenKey st slot right)).nodes.length
        = st.nodes.length + 1 := pushNode_length st _
    obtain ⟨st', hfold, hlen, hcp, -, -, hmemf⟩ :=
      foldAdopt st.nodes.length (getN st right).children
        (pushNode st (flattenKey st slot right))
        hne (by rw [hlen1]; omega)
    have hcp1 : countPacked (pushNode st (flattenKey st slot right))
        = countPacked st := countPacked_pushNode st _ rfl
    have hget1 : getN (pushNode st (flattenKey st slot right)) st.nodes.length
        = flattenKey st slot right := getN_pushNode_self st _
    refine ⟨st', st.nodes.length, ?_, by rw [hcp, hcp1], by omega, ?_⟩
    · show (do
        let st2 ← (getN st right).children.foldlM
          (fun acc c => addChildE acc st.nodes.length c)
          (pushNode st (flattenKey st slot right))
        pure (st2, st.nodes.length)) = Except.ok (st', st.nodes.length)
      rw [hfold]
      rfl
    · intro c
      rw [hmemf c, hget1]
      have : ¬ st.nodes.length < st.nodes.length := by omega
      simp [flattenKey, this]

/-- C2, counterexample to the spec's claim: all of the claim's
conditions hold (no left operand, the right operand is a nonterminal
symbol node of the rule's own nonterminal, the slot is self-recursive,
`keep_recursion` unset), yet because the slot is the rule's *last* slot
`getNodeP` takes the nonterminal-node path: a fresh packed child is
created and the parent's children are not the right operand's children. -/
theorem getNodeP_flatten_cex :
    ((getN stC2 0).label = .ntL slotC2.nt ∧
     slotIsRecursive gRecMid slotC2 = true ∧
     keepRec gRecMid slotC2.nt = false ∧
     (∀ c ∈ (getN stC2 0).children, (getN stC2 c).isPackedB = true)) ∧
    getNodeP gRecMid slotC2 none 0 stC2 = .ok c2Result ∧
    countPacked c2Result.1 = countPacked stC2 + 1 ∧
    (getN c2Result.1 c2Result.2).children ≠ (getN stC2 0).children := by
  refine ⟨⟨by decide, by decide, by decide, by decide⟩, ?_, by decide,
    by decide⟩
  rfl

/-- C7, counterexample to the spec's claim: the start nonterminal's only
rule is disabled, yet `parse` returns a parse tree (and no diagnostic):
a disabled rule leaves the first-set empty, and `beginNonTerminal`
iterates *all* rules of a nonterminal with an empty first-set without
consulting `isEnabled`, so the disabled rule is parsed as if enabled. -/
theorem parse_disabled_rules_cex :
    (ntRules gDis 0 ≠ [] ∧ ∀ r ∈ ntRules gDis 0, r.enabled = false) ∧
    (parseP gDis 0 100 psC7).toOption.map (fun p => p.1.isSome)
      = some true ∧
    (parseP gDis 0 100 psC7).toOption.map (fun p => p.2.delivered)
      = some [] :=
  ⟨⟨by decide, by decide⟩, by decide, by decide⟩

/-- C7 (amended): a start nonterminal with *no rules at all* makes
`parse` return null immediately, with no diagnostics and no state
change (`start.empty()` guard); merely disabling every rule does not
(see the counterexample: disabled rules are still parsed). -/
theorem parse_no_rules (g : GrammarM) (start fuel : Nat) (ps : PState)
    (hlx : ps.lexerSet = true) (hrules : ntRules g start = []) :
    parseP g start fuel ps = .ok (none, ps) := by
  unfold parseP
  rw [if_neg (by rw [hlx]; simp), if_pos (by rw [hrules]; rfl)]

theorem parse_no_rules_witness :
    psC7.lexerSet = true ∧ ntRules gNoRules 0 = [] ∧
    parseP gNoRules 0 5 psC7 = .ok (none, psC7) :=
  ⟨by decide, by decide, parse_no_rules gNoRules 0 5 psC7 rfl (by decide)⟩

/-- C6: when the first token delivered by the lexer is `TOK_EOF`
(kind 1), `parse` returns null after lexing just that one token: the
GLL engine never runs and nothing else in the parser state changes. -/
theorem parse_eof_none (g : GrammarM) (start fuel : Nat) (ps : PState)
    (off : Nat) (rest : List TokenE)
    (hlx : ps.lexerSet = true) (hr : ntRules g start ≠ [])
    (hf : ps.nFatal = 0) (ht : ps.tokens = [])
    (hlex : ps.lexInput = { kind := 1, offset := off } :: rest) :
    parseP g start fuel ps =
      .ok (none, { ps with lexInput := rest,
                           tokens := [{ kind := 1, offset := off }] }) := by
  unfold parseP
  rw [if_neg (by rw [hlx]; simp),
      if_neg (by simp [List.isEmpty_iff, hr]),
      if_neg (by omega)]
  unfold nextTokenP
  rw [if_pos (by rw [ht]; simp), hlex]
  unfold lexStrike
  rw [if_neg (by simp)]
  simp only [ht, List.nil_append, List.length_nil]
  rw [if_pos (by rfl)]

theorem parse_eof_none_witness :
    psEof.lexerSet = true ∧ ntRules gTwoTerm 0 ≠ [] ∧ psEof.nFatal = 0 ∧
    psEof.tokens = [] ∧
    psEof.lexInput = { kind := 1, offset := 5 } :: [] ∧
    parseP gTwoTerm 0 3 psEof =
      .ok (none, { psEof with lexInput := [],
                              tokens := [{ kind := 1, offset := 5 }] }) :=
  ⟨rfl, by decide, rfl, rfl, rfl,
    parse_eof_none gTwoTerm 0 3 psEof 5 [] rfl (by decide) rfl rfl rfl⟩

/-- C9: once a fatal error has been counted, `parse` returns null
immediately with no state change (no token is requested, the engine
never runs); `reset` clears the token list, the dedup set and every
severity counter — re-enabling parsing — while the lexer binding and its
pending input are untouched. -/
theorem parse_after_fatal_and_reset (g : GrammarM) (start fuel : Nat)
    (ps : PState) (hlx : ps.lexerSet = true) (hf : 0 < ps.nFatal) :
    parseP g start fuel ps = .ok (none, ps) ∧
    (resetP ps).tokens = [] ∧ (resetP ps).dedup = [] ∧
    totalCount (resetP ps) = 0 ∧ (resetP ps).nFatal = 0 ∧
    (resetP ps).lexerSet = ps.lexerSet ∧
    (resetP ps).lexInput = ps.lexInput := by
  refine ⟨?_, rfl, rfl, rfl, rfl, rfl, rfl⟩
  unfold parseP
  rw [if_neg (by rw [hlx]; simp)]
  by_cases hrules : (ntRules g start).isEmpty = true
  · rw [if_pos hrules]
  · rw [if_neg hrules, if_pos hf]

theorem parse_after_fatal_and_reset_witness :
    (psFatal.lexerSet = true ∧ 0 < psFatal.nFatal) ∧
    (parseP gTwoTerm 0 7 psFatal = .ok (none, psFatal) ∧
     (resetP psFatal).tokens = [] ∧ (resetP psFatal).dedup = [] ∧
     totalCount (resetP psFatal) = 0 ∧ (resetP psFatal).nFatal = 0 ∧
     (resetP psFatal).lexerSet = psFatal.lexerSet ∧
     (resetP psFatal).lexInput = psFatal.lexInput) :=
  ⟨⟨rfl, by decide⟩,
    parse_after_fatal_and_reset gTwoTerm 0 7 psFatal rfl (by decide)⟩

/-- C5: a diagnostic whose `(id, offset)` pair is already in the dedup
set is silently dropped (not delivered, not counted); a fresh one is
delivered and counted exactly once and recorded, so an immediate second
emit of it is a no-op; and any `parse` call that passes the entry guards
finishes with an empty dedup set, so a later parse can deliver the same
`(id, offset)` again. -/
theorem emit_dedup_per_parse :
    (∀ ps d, (d.id, d.offset) ∈ ps.dedup → emitP ps d = .ok ps) ∧
    (∀ ps d, (d.id, d.offset) ∉ ps.dedup → d.sev ≤ 3 →
       (emitOut ps d).delivered = ps.delivered ++ [d] ∧
       (d.id, d.offset) ∈ (emitOut ps d).dedup ∧
       totalCount (emitOut ps d) = totalCount ps + 1) ∧
    (∀ ps d ps2, emitP ps d = .ok ps2 → emitP ps2 d = .ok ps2) ∧
    (∀ (g : GrammarM) (start fuel : Nat) (ps : PState) (t : TokenE)
       (rest : List TokenE) (r : Option Nat) (ps2 : PState),
       ps.lexerSet = true → ntRules g start ≠ [] → ps.nFatal = 0 →
       ps.tokens = [] → ps.lexInput = t :: rest → t.kind ≠ 0 →
       t.kind ≠ 1 → parseP g start fuel ps = .ok (r, ps2) →
       ps2.dedup = []) := by
  have hmemT : ∀ (ps : PState) (d : DiagM), (d.id, d.offset) ∈ ps.dedup →
      ps.dedup.contains (d.id, d.offset) = true := by
    intro ps d h
    simpa using h
  refine ⟨?_, ?_, ?_, ?_⟩
  · intro ps d h
    unfold emitP
    rw [if_pos (hmemT ps d h)]
  · intro ps d h hsev
    have hmf : ps.dedup.contains (d.id, d.offset) = false := by
      simpa using h
    have hout : emitOut ps d =
        countDiag { ps with dedup := ps.dedup ++ [(d.id, d.offset)],
                            delivered := ps.delivered ++ [d] } d := by
      unfold emitOut emitP
      rw [hmf]
      simp only [Bool.false_eq_true, if_false]
      by_cases hs3 : 3 ≤ d.sev
      · rw [if_pos hs3]
      · rw [if_neg hs3]
    rw [hout]
    rcases (by omega : d.sev = 0 ∨ d.sev = 1 ∨ d.sev = 2 ∨ d.sev = 3)
        with h0 | h0 | h0 | h0 <;>
      · unfold countDiag totalCount
        rw [h0]
        refine ⟨by simp, by simp, by simp <;> omega⟩
  · intro ps d ps2 h
    by_cases hmem : (d.id, d.offset) ∈ ps.dedup
    · have := h
      unfold emitP at this
      rw [if_pos (hmemT ps d hmem)] at this
      injection this with h2
      subst h2
      unfold emitP
      rw [if_pos (hmemT ps d hmem)]
    · have hmf : ps.dedup.contains (d.id, d.offset) = false := by
        simpa using hmem
      unfold emitP at h
      rw [hmf] at h
      simp only [Bool.false_eq_true, if_false] at h
      by_cases hs3 : 3 ≤ d.sev
      · rw [if_pos hs3] at h
        cases h
      · rw [if_neg hs3] at h
        injection h with h2
        have hdd : (d.id, d.offset) ∈ ps2.dedup := by
          rw [← h2]
          unfold countDiag
          rcases (by omega : d.sev = 0 ∨ d.sev = 1 ∨ d.sev = 2)
            with h0 | h0 | h0 <;> rw [h0] <;> simp
        unfold emitP
        rw [if_pos (hmemT ps2 d hdd)]
  · intro g start fuel ps t rest r ps2 hlx hr hf ht hlex hk0 hk1 h
    unfold parseP at h
    rw [if_neg (by rw [hlx]; simp),
        if_neg (by simp [List.isEmpty_iff, hr]),
        if_neg (by omega)] at h
    unfold nextTokenP at h
    rw [if_pos (by rw [ht]; simp), hlex] at h
    unfold lexStrike at h
    rw [if_neg (by simpa using hk0)] at h
    simp only [ht, List.nil_append, List.length_nil] at h
    rw [if_neg (by simpa using hk1)] at h
    rcases hPM : parseMainP g start fuel
        { ps with lexInput := rest, tokens := [t] } 0 with e | stF
    · cases e with
      | none =>
        rw [hPM] at h
        cases h
      | some psX =>
        rw [hPM] at h
        injection h with h2
        have := congrArg Prod.snd h2
        simp at this
        rw [← this]
    · rw [hPM] at h
      simp only at h
      cases hm : stF.matched with
      | none =>
        rw [hm] at h
        injection h with h2
        have := congrArg Prod.snd h2
        simp at this
        rw [← this]
      | some m =>
        rw [hm] at h
        injection h with h2
        have := congrArg Prod.snd h2
        simp at this
        rw [← this]

theorem emit_dedup_per_parse_witness :
    emitP psEof ⟨2, 3, 4⟩ = .ok psEof ∧
    (emitOut psC7 ⟨2, 4, 9⟩).delivered = psC7.delivered ++ [⟨2, 4, 9⟩] ∧
    c5out.2.dedup = [] := by
  refine ⟨(emit_dedup_per_parse).1 psEof ⟨2, 3, 4⟩ (by decide),
    ((emit_dedup_per_parse).2.1 psC7 ⟨2, 4, 9⟩ (by decide) (by decide)).1,
    (emit_dedup_per_parse).2.2.2 gTwoTerm 0 50 psC7 ⟨7, 0⟩ [⟨1, 1⟩]
      c5out.1 c5out.2 rfl (by decide) rfl rfl rfl (by decide) (by decide)
      ?_⟩
  rfl

theorem matchedUpd_none (ps : PState) (sp : SState) (z : Nat) :
    matchedUpd ps sp z none = some z := rfl

theorem matchedUpd_some (ps : PState) (sp : SState) (z m : Nat) :
    matchedUpd ps sp z (some m) =
      if offAt ps ((getN sp z).lastTok) > offAt ps ((getN sp m).lastTok)
      then some z else some m := rfl

theorem matchedUpd_idem (ps : PState) (sp : SState) (z : Nat)
    (m0 : Option Nat) :
    matchedUpd ps sp z (matchedUpd ps sp z m0) = matchedUpd ps sp z m0 := by
  cases m0 with
  | none =>
    rw [matchedUpd_none, matchedUpd_some, if_neg (by omega)]
  | some m =>
    rw [matchedUpd_some]
    by_cases hc : offAt ps ((getN sp z).lastTok)
        > offAt ps ((getN sp m).lastTok)
    · rw [if_pos hc, matchedUpd_some, if_neg (by omega)]
    · rw [if_neg hc, matchedUpd_some, if_neg hc]

theorem addG_fields (st : GLLState) (d : Desc) :
    (addG st d).ps = st.ps ∧ (addG st d).sppf = st.sppf ∧
    (addG st d).matched = st.matched := by
  unfold addG
  by_cases hv : st.visited.contains
      { pos := d.pos, addr := d.addr, head := d.head, sppf := d.sppf } = true
  · rw [if_pos hv]
    exact ⟨rfl, rfl, rfl⟩
  · rw [if_neg hv]
    exact ⟨rfl, rfl, rfl⟩

theorem popStep_none_matched (g : GrammarM) (head : GssKey) (z : Nat)
    (depth : Nat) (st : GLLState) (e : GEdge) (hret : head.ret = none) :
    ∃ st', popStep g head z depth st e = .ok st' ∧
      st'.ps = st.ps ∧ st'.sppf = st.sppf ∧
      st'.matched = matchedUpd st.ps st.sppf z st.matched := by
  unfold popStep
  rw [hret]
  refine ⟨_, rfl, (addG_fields _ _).1, (addG_fields _ _).2.1, ?_⟩
  rw [(addG_fields _ _).2.2]

theorem popFold_none (g : GrammarM) (head : GssKey) (z : Nat) (depth : Nat)
    (hret : head.ret = none) :
    ∀ (es : List GEdge) (st : GLLState),
      ∃ st', es.foldlM (popStep g head z depth) st = .ok st' ∧
        st'.ps = st.ps ∧ st'.sppf = st.sppf ∧
        st'.matched = (if es.isEmpty then st.matched
                       else matchedUpd st.ps st.sppf z st.matched) := by
  intro es
  induction es with
  | nil =>
    intro st
    exact ⟨st, rfl, rfl, rfl, rfl⟩
  | cons e rest ih =>
    intro st
    obtain ⟨st1, h1, hps1, hsp1, hm1⟩ :=
      popStep_none_matched g head z depth st e hret
    obtain ⟨st2, h2, hps2, hsp2, hm2⟩ := ih st1
    refine ⟨st2, ?_, hps2.trans hps1, hsp2.trans hsp1, ?_⟩
    · rw [List.foldlM_cons, h1]
      exact h2
    · rw [hm2, hps1, hsp1, hm1]
      by_cases he : rest.isEmpty = true
      · rw [if_pos he]
        simp
      · rw [if_neg he]
        simp [matchedUpd_idem]

/-- C1: popping a GSS head whose return address is null updates the
longest-match `matched_` exactly when the new top-level parse ends at a
strictly greater last-token offset; on a tie or a shorter parse the
previously recorded one is kept, and with no GSS edges nothing
changes. -/
theorem pop_toplevel_longest (g : GrammarM) (st : GLLState) (head : GssKey)
    (z : Nat) (depth : Nat) (hret : head.ret = none) :
    ∃ st', popG g st head z depth = .ok st' ∧
      (edgesOf st head = [] → st'.matched = st.matched) ∧
      (edgesOf st head ≠ [] →
        (st.matched = none → st'.matched = some z) ∧
        (∀ m, st.matched = some m →
          (offAt st.ps ((getN st.sppf z).lastTok)
             > offAt st.ps ((getN st.sppf m).lastTok) →
            st'.matched = some z) ∧
          (offAt st.ps ((getN st.sppf z).lastTok)
             ≤ offAt st.ps ((getN st.sppf m).lastTok) →
            st'.matched = some m))) := by
  unfold popG
  set st0 := if st.popped.contains (head, z) then st
             else { st with popped := st.popped ++ [(head, z)] } with hst0
  have hsame : st0.ps = st.ps ∧ st0.sppf = st.sppf ∧
      st0.matched = st.matched ∧ edgesOf st0 head = edgesOf st head := by
    rw [hst0]
    by_cases hp : st.popped.contains (head, z) = true
    · rw [if_pos hp]
      exact ⟨rfl, rfl, rfl, rfl⟩
    · rw [if_neg hp]
      exact ⟨rfl, rfl, rfl, rfl⟩
  obtain ⟨st', hrun, hps, hsp, hm⟩ :=
    popFold_none g head z depth hret (edgesOf st0 head) st0
  refine ⟨st', hrun, ?_, ?_⟩
  · intro he
    rw [hm, hsame.2.2.2, he]
    simp [hsame.2.2.1]
  · intro he
    have hne : (edgesOf st0 head).isEmpty = false := by
      rw [hsame.2.2.2]
      cases hee : edgesOf st head with
      | nil => exact absurd hee he
      | cons a t => rfl
    rw [hm, hne]
    simp only [Bool.false_eq_true, if_false]
    rw [hsame.1, hsame.2.1, hsame.2.2.1]
    constructor
    · intro h0
      rw [h0]
      rfl
    · intro m hm0
      rw [hm0]
      constructor
      · intro hgt
        rw [matchedUpd_some, if_pos hgt]
      · intro hle
        rw [matchedUpd_some, if_neg (by omega)]

theorem pop_toplevel_longest_witness :
    (⟨none, some 0⟩ : GssKey).ret = none ∧
    (∃ st', popG gTwoTerm stC1 ⟨none, some 0⟩ 1 0 = .ok st' ∧
      (edgesOf stC1 ⟨none, some 0⟩ = [] → st'.matched = stC1.matched) ∧
      (edgesOf stC1 ⟨none, some 0⟩ ≠ [] →
        (stC1.matched = none → st'.matched = some 1) ∧
        (∀ m, stC1.matched = some m →
          (offAt stC1.ps ((getN stC1.sppf 1).lastTok)
             > offAt stC1.ps ((getN stC1.sppf m).lastTok) →
            st'.matched = some 1) ∧
          (offAt stC1.ps ((getN stC1.sppf 1).lastTok)
             ≤ offAt stC1.ps ((getN stC1.sppf m).lastTok) →
            st'.matched = some m)))) :=
  ⟨rfl, pop_toplevel_longest gTwoTerm stC1 ⟨none, some 0⟩ 1 0 rfl⟩

theorem getNodeP_flatten_witness :
    ((∀ i ∈ stW.consed, i < stW.nodes.length) ∧
     onLastSlot gLrPlus slotW = false) ∧
    (∃ st' ret, getNodeP gLrPlus slotW none 0 stW = .ok (st', ret) ∧
       countPacked st' = countPacked stW ∧
       st'.nodes.length ≤ stW.nodes.length + 1 ∧
       (∀ c, c ∈ (getN st' ret).children ↔
          (c ∈ (getN stW 0).children ∨
           (ret < stW.nodes.length ∧ c ∈ (getN stW ret).children)))) :=
  ⟨⟨by decide, by decide⟩,
    getNodeP_flatten gLrPlus slotW 0 stW (by decide) (by decide) (by decide)
      (by decide) (by decide) (by decide)⟩

theorem lr_rules_appended_witness :
    (0 < gLrPlus.length ∧ analyzeStatus gLrPlus 0 ≠ .stIndet) ∧
    ((∀ x ∈ analyzeLRRules gLrPlus 0, ∃ r,
        (ntRules gLrPlus 0).get? x = some r ∧ r.enabled = true ∧
        r.isRecursiveTo 0 = true) ∧
     List.Chain' (fun a b => a < b) (analyzeLRRules gLrPlus 0) ∧
     (∀ k l, lookupKey k (analyzedState gLrPlus 0).terminals = some l →
        ∃ w, l = w ++ analyzeLRRules gLrPlus 0 ∧
          ∀ x ∈ w, ∃ r, (ntRules gLrPlus 0).get? x = some r ∧
            r.enabled = true ∧ r.isLeftRecursiveTo 0 = false)) :=
  ⟨⟨by decide, by decide⟩, lr_rules_appended gLrPlus 0 (by decide) (by decide)⟩

end WrParse
